import Mathlib

/-!
# MORSE extension of OMPL: environment descriptor, control simulation, path playback

A shallow embedding of `ompl/extensions/morse/MorseEnvironment.h` (the constructor of
`ompl::base::MorseEnvironment`) and of `ompl/extensions/morse/src/MorseSimpleSetup.cpp`
(`setup`, `playPath`, `simulateControl`, `simulate`).

Conventions of the embedding.

* `double` is an IEEE 754 binary64 value held as its three bit fields (`Double`).
  Only the operations the two files use are defined: `==`, unary minus, the constants
  `infinity()` and `max()`, division by two and the conversion from `unsigned int`.
* `std::vector<T>` is `List T`; `v.size()` is `List.length` (a `std::size_t`, taken to be
  wider than 32 bits, as on LP64 platforms).
* Every loop counter of the two files is declared `unsigned int`; the increment is
  `(i + 1) % 2 ^ 32`.  A loop therefore takes a step budget (`fuel`) and the embedding
  reports when the budget ran out.
* An `unsigned int` handed to an `int` parameter is converted modulo `2 ^ 32`
  (`unsignedToInt`): values of `2 ^ 31` and above arrive negative.
* The live simulator world is an explicit value of a type `W`; the four primitives and the
  propagator are fields of `Collaborators`, and every call to one of them is appended to a
  trace of `Event`s.
-/

namespace ompl

/-! ## IEEE 754 binary64 -/

/-- A binary64 value as sign bit, biased 11-bit exponent and 52-bit fraction. -/
structure Double where
  sign : Bool
  exponent : Nat
  mantissa : Nat
deriving DecidableEq, Repr

namespace Double

/-- The range of the three bit fields. -/
def WellFormed (d : Double) : Prop := d.exponent < 2048 ∧ d.mantissa < 2 ^ 52

instance (d : Double) : Decidable d.WellFormed := by
  unfold WellFormed; exact inferInstance

/-- A NaN: all exponent bits set and a non-zero fraction. -/
def isNaN (d : Double) : Bool := d.exponent == 2047 && d.mantissa != 0

/-- Positive or negative zero. -/
def isZero (d : Double) : Bool := d.exponent == 0 && d.mantissa == 0

/-- Positive or negative infinity: all exponent bits set and a zero fraction. -/
def isInfinite (d : Double) : Bool := d.exponent == 2047 && d.mantissa == 0

/-- The C++ operator `==` on doubles: a NaN equals nothing, the two zeros are equal,
every other value equals only itself. -/
def eq (a b : Double) : Bool :=
  if a.isNaN || b.isNaN then false
  else if a.isZero && b.isZero then true
  else decide (a = b)

/-- Unary minus flips the sign bit. -/
def neg (d : Double) : Double := { d with sign := !d.sign }

/-- The value `std::numeric_limits<double>::infinity()`. -/
def infinity : Double := ⟨false, 2047, 0⟩

/-- The value `std::numeric_limits<double>::max()`, bit pattern `0x7FEFFFFFFFFFFFFF`. -/
def max : Double := ⟨false, 2046, 2 ^ 52 - 1⟩

/-- The value `+0.0`. -/
def zero : Double := ⟨false, 0, 0⟩

/-- Halving of an integer significand, rounded to nearest, ties to even. -/
def roundHalfEven (x : Nat) : Nat :=
  if x % 2 = 0 then x / 2
  else if (x / 2) % 2 = 0 then x / 2
  else x / 2 + 1

/-- The expression `d / 2` in the default rounding mode.  Infinities and NaNs are kept,
a normal value with room below loses one from its exponent (exact), the smallest normal
binade and the subnormals halve their significand with rounding. -/
def div2 (d : Double) : Double :=
  if d.exponent = 2047 then d
  else if 2 ≤ d.exponent then { d with exponent := d.exponent - 1 }
  else if d.exponent = 1 then
    let m := roundHalfEven (2 ^ 52 + d.mantissa)
    if m < 2 ^ 52 then { d with exponent := 0, mantissa := m }
    else { d with exponent := 1, mantissa := m - 2 ^ 52 }
  else { d with mantissa := roundHalfEven d.mantissa }

/-- The conversion of an `unsigned int` to `double`, exact for every 32-bit value:
the leading one bit becomes the implicit bit and the remaining bits are shifted to the top
of the fraction. -/
def ofUInt32 (n : Nat) : Double :=
  if n = 0 then zero
  else ⟨false, 1023 + Nat.log2 n, (n - 2 ^ Nat.log2 n) * 2 ^ (52 - Nat.log2 n)⟩

/-- The rational number a finite binary64 value stands for (infinities and NaNs are given
the value their bit fields would have as a finite number; callers exclude them). -/
def toRat (d : Double) : ℚ :=
  let magnitude : ℚ :=
    if d.exponent = 0 then (d.mantissa : ℚ) / 2 ^ 1074
    else if d.exponent < 1075 then ((2 ^ 52 + d.mantissa : Nat) : ℚ) / 2 ^ (1075 - d.exponent)
    else ((2 ^ 52 + d.mantissa : Nat) : ℚ) * 2 ^ (d.exponent - 1075)
  if d.sign then -magnitude else magnitude

end Double

/-- The conversion of an `unsigned int` argument to an `int` parameter (two's complement,
32 bits): a value below `2 ^ 31` is kept, a value of `2 ^ 31` or above loses `2 ^ 32`. -/
def unsignedToInt (n : Nat) : Int :=
  if n % 2 ^ 32 < 2 ^ 31 then ((n % 2 ^ 32 : Nat) : Int)
  else ((n % 2 ^ 32 : Nat) : Int) - 2 ^ 32

namespace base

/-! ## `MorseEnvironment` -/

/-- The data members of `ompl::base::MorseEnvironment` (the mutex carries no data). -/
structure MorseEnvironment where
  controlDim_ : Nat
  controlBounds_ : List Double
  rigidBodies_ : Nat
  positionBounds_ : List Double
  linvelBounds_ : List Double
  angvelBounds_ : List Double
  stepSize_ : Double
  minControlSteps_ : Nat
  maxControlSteps_ : Nat
  simRunning_ : Bool
deriving DecidableEq, Repr

namespace MorseEnvironment

/-- One of the three loops of the constructor body,
`for (unsigned int i = 0; i < bounds.size(); i++) { if (bounds[i]==inf) ... else if ... }`,
started at counter value `i`.  `none` means the step budget ran out. -/
def clampLoop : Nat → Nat → List Double → Option (List Double)
  | 0, _, _ => none
  | fuel + 1, i, bounds =>
    if h : i < bounds.length then
      if Double.eq bounds[i] Double.infinity then
        clampLoop fuel ((i + 1) % 2 ^ 32) (bounds.set i (Double.div2 Double.max))
      else if Double.eq bounds[i] (Double.neg Double.infinity) then
        clampLoop fuel ((i + 1) % 2 ^ 32) (bounds.set i (Double.div2 (Double.neg Double.max)))
      else
        clampLoop fuel ((i + 1) % 2 ^ 32) bounds
    else some bounds

/-- The constructor `MorseEnvironment::MorseEnvironment`: the member initialisers copy the
nine arguments and set `simRunning_`, then the body runs the three clamping loops in the
order position, linear velocity, angular velocity. -/
def construct (fuel : Nat) (controlDim : Nat) (controlBounds : List Double) (rigidBodies : Nat)
    (positionBounds linvelBounds angvelBounds : List Double) (stepSize : Double)
    (minControlSteps maxControlSteps : Nat) : Option MorseEnvironment :=
  match clampLoop fuel 0 positionBounds with
  | none => none
  | some pos =>
    match clampLoop fuel 0 linvelBounds with
    | none => none
    | some lin =>
      match clampLoop fuel 0 angvelBounds with
      | none => none
      | some ang =>
        some { controlDim_ := controlDim, controlBounds_ := controlBounds,
               rigidBodies_ := rigidBodies, positionBounds_ := pos, linvelBounds_ := lin,
               angvelBounds_ := ang, stepSize_ := stepSize,
               minControlSteps_ := minControlSteps, maxControlSteps_ := maxControlSteps,
               simRunning_ := true }

/-- What one pass of the loop body leaves at an entry. -/
def clampEntry (x : Double) : Double :=
  if Double.eq x Double.infinity then Double.div2 Double.max
  else if Double.eq x (Double.neg Double.infinity) then Double.div2 (Double.neg Double.max)
  else x

/-- The relation between a bounds argument of the constructor and the member it initialises:
same length, entry by entry `+infinity` became `max()/2`, `-infinity` became `-max()/2` and
every other entry is the argument entry, and no stored entry is infinite. -/
def ClampedCopy (input stored : List Double) : Prop :=
  stored.length = input.length ∧
  (∀ (i : Nat) (x : Double), input[i]? = some x →
    stored[i]? = some (if x = Double.infinity then Double.div2 Double.max
                       else if x = Double.neg Double.infinity then
                         Double.div2 (Double.neg Double.max)
                       else x)) ∧
  ∀ y ∈ stored, Double.isInfinite y = false

end MorseEnvironment

end base

namespace control

/-! ## The live world, its primitives and the call trace -/

/-- A call made on the simulator side.  `readState`, `writeState`, `applyControl` and
`worldStep` are the four pure virtual members of `MorseEnvironment`; `propagate` is
`StatePropagator::propagate`, `siPropagate` is `SpaceInformation::propagate` (a signed step
count, `int steps`, instead of a duration); `lock` and `unlock` are acquire and release of
`MorseEnvironment::mutex_`. -/
inductive Event (S C : Type) where
  | readState : Event S C
  | writeState (s : S) : Event S C
  | applyControl (c : List Double) : Event S C
  | worldStep (dur : Double) : Event S C
  | propagate (s : S) (c : C) (duration : Double) : Event S C
  | siPropagate (s : S) (c : C) (steps : Int) : Event S C
  | lock : Event S C
  | unlock : Event S C
deriving DecidableEq, Repr

/-- The code that `MorseSimpleSetup.cpp` calls but does not define, as functions on the
live world `W`:
the four primitives (reached through `MorseStateSpace` or `getEnvironment()`), the state
propagator installed by the constructor and `SpaceInformation::propagate`; a propagation
returns the new world and the state written to its `result` argument. -/
structure Collaborators (W S C : Type) where
  readState : W → S
  writeState : W → S → W
  applyControl : W → List Double → W
  worldStep : W → Double → W
  propagate : W → S → C → Double → W × S
  siPropagate : W → S → C → Int → W × S

/-- The live world together with the calls made on it so far, oldest first. -/
structure Sim (W S C : Type) where
  world : W
  trace : List (Event S C)

namespace Sim

variable {W S C : Type}

/-- The call `getStateSpace()->as<base::MorseStateSpace>()->readState(s)`. -/
def readState (k : Collaborators W S C) (σ : Sim W S C) : S × Sim W S C :=
  (k.readState σ.world, { σ with trace := σ.trace ++ [Event.readState] })

/-- The call `getStateSpace()->as<base::MorseStateSpace>()->writeState(s)`. -/
def writeState (k : Collaborators W S C) (σ : Sim W S C) (s : S) : Sim W S C :=
  { world := k.writeState σ.world s, trace := σ.trace ++ [Event.writeState s] }

/-- The call `getEnvironment()->worldStep(d)`. -/
def worldStep (k : Collaborators W S C) (σ : Sim W S C) (d : Double) : Sim W S C :=
  { world := k.worldStep σ.world d, trace := σ.trace ++ [Event.worldStep d] }

/-- The call `si_->getStatePropagator()->propagate(s, c, d, result)`. -/
def propagate (k : Collaborators W S C) (σ : Sim W S C) (s : S) (c : C) (d : Double) :
    S × Sim W S C :=
  ((k.propagate σ.world s c d).2,
   { world := (k.propagate σ.world s c d).1, trace := σ.trace ++ [Event.propagate s c d] })

/-- The call `si_->propagate(s, c, steps, result)`, `steps` being the `int` the callee
receives. -/
def siPropagate (k : Collaborators W S C) (σ : Sim W S C) (s : S) (c : C) (steps : Int) :
    S × Sim W S C :=
  ((k.siPropagate σ.world s c steps).2,
   { world := (k.siPropagate σ.world s c steps).1,
     trace := σ.trace ++ [Event.siPropagate s c steps] })

end Sim

/-! ## Paths -/

/-- The members of `PathControl` that the file reads and writes. -/
structure PathControl (S C : Type) where
  states_ : List S
  controls_ : List C
  controlDurations_ : List Double
deriving DecidableEq, Repr

/-- The member of `geometric::PathGeometric` that the file reads. -/
structure PathGeometric (S : Type) where
  states_ : List S
deriving DecidableEq, Repr

/-- The dynamic type of the object behind a `base::Path*`, as the two `dynamic_cast`s of
`playPath` tell it apart. -/
inductive Path (S C : Type) where
  | control (pc : PathControl S C) : Path S C
  | geometric (pg : PathGeometric S) : Path S C
  | other : Path S C
deriving DecidableEq, Repr

/-- A `base::PathPtr`; `none` is the empty shared pointer, whose `get()` is null. -/
abbrev PathPtr (S C : Type) := Option (Path S C)

/-- The member function `PathControl::getControlCount`. -/
def PathControl.getControlCount {S C : Type} (pc : PathControl S C) : Nat := pc.controls_.length

/-- The member function `PathGeometric::getStateCount`. -/
def PathGeometric.getStateCount {S : Type} (pg : PathGeometric S) : Nat := pg.states_.length

/-- The object thrown by `throw Exception(msg)`. -/
structure Exception where
  what : String
deriving DecidableEq, Repr

/-- How a call ended: it returned, it threw, it indexed a vector past its end (undefined
behaviour in C++), or the step budget of the embedding ran out before it ended. -/
inductive Status where
  | returned : Status
  | threw (e : Exception) : Status
  | outOfRange : Status
  | outOfFuel : Status
deriving DecidableEq, Repr

/-! ## `SpaceInformation`, `ProblemDefinition`, `MorseSimpleSetup` -/

/-- What `si_->getStateValidityChecker()` can hold: a checker the caller installed or the
`MorseStateValidityChecker` that `setup` creates. -/
inductive StateValidityChecker (V : Type) where
  | supplied (v : V) : StateValidityChecker V
  | morseStateValidityChecker : StateValidityChecker V
deriving DecidableEq, Repr

/-- What the default projection of the state space can hold: a projection registered by the
caller or the `MorseProjection` that `setup` creates. -/
inductive ProjectionEvaluator (P : Type) where
  | supplied (p : P) : ProjectionEvaluator P
  | morseProjection : ProjectionEvaluator P
deriving DecidableEq, Repr

/-- The parts of `control::SpaceInformation` (and of the state space it holds) that the file
reads and writes. -/
structure SpaceInformation (V P : Type) where
  stepSize_ : Double
  minSteps_ : Nat
  maxSteps_ : Nat
  stateValidityChecker_ : Option (StateValidityChecker V)
  defaultProjection_ : Option (ProjectionEvaluator P)
  dimension_ : Nat
deriving DecidableEq, Repr

namespace SpaceInformation

variable {V P : Type}

/-- Modelled from the spec: `SpaceInformation::setPropagationStepSize`, declared outside the
given sources; it stores the step size of the planning session. -/
def setPropagationStepSize (si : SpaceInformation V P) (stepSize : Double) :
    SpaceInformation V P := { si with stepSize_ := stepSize }

/-- Modelled from the spec: `SpaceInformation::setMinMaxControlDuration`, declared outside
the given sources; it stores the minimum and maximum control duration. -/
def setMinMaxControlDuration (si : SpaceInformation V P) (minSteps maxSteps : Nat) :
    SpaceInformation V P := { si with minSteps_ := minSteps, maxSteps_ := maxSteps }

/-- Modelled from the spec: `SpaceInformation::getPropagationStepSize`, declared outside the
given sources; it returns the stored step size. -/
def getPropagationStepSize (si : SpaceInformation V P) : Double := si.stepSize_

/-- Modelled from the spec: `SpaceInformation::setStateValidityChecker`, declared outside the
given sources; it stores the checker. -/
def setStateValidityChecker (si : SpaceInformation V P) (c : StateValidityChecker V) :
    SpaceInformation V P := { si with stateValidityChecker_ := some c }

/-- Modelled from the spec: `StateSpace::hasDefaultProjection`, declared outside the given
sources; it tells whether a default projection is registered. -/
def hasDefaultProjection (si : SpaceInformation V P) : Bool := si.defaultProjection_.isSome

/-- Modelled from the spec: `StateSpace::registerDefaultProjection`, declared outside the
given sources; it stores the projection as the default one. -/
def registerDefaultProjection (si : SpaceInformation V P) (p : ProjectionEvaluator P) :
    SpaceInformation V P := { si with defaultProjection_ := some p }

end SpaceInformation

/-- The part of `base::ProblemDefinition` that `setup` reads and writes. -/
structure ProblemDefinition (S : Type) where
  startStates_ : List S
deriving DecidableEq, Repr

/-- Modelled from the spec: `ProblemDefinition::getStartStateCount`, declared outside the
given sources; the number of start states. -/
def ProblemDefinition.getStartStateCount {S : Type} (pdef : ProblemDefinition S) : Nat :=
  pdef.startStates_.length

/-- Modelled from the spec: `ProblemDefinition::addStartState`, declared outside the given
sources; it appends (a copy of) the state to the start states. -/
def ProblemDefinition.addStartState {S : Type} (pdef : ProblemDefinition S) (s : S) :
    ProblemDefinition S := { pdef with startStates_ := pdef.startStates_ ++ [s] }

/-- The object `MorseSimpleSetup`: its own member `env_`, the members `si_` and `pdef_` of
the base class `SimpleSetup`, and the rest of the base class (planner, configured flag)
as a value of type `B`. -/
structure MorseSimpleSetup (S V P B : Type) where
  env_ : base.MorseEnvironment
  si_ : SpaceInformation V P
  pdef_ : ProblemDefinition S
  simpleSetup_ : B

/-! ## Control objects -/

/-- The `values` array of a `MorseControlSpace::ControlType`. -/
abbrev ControlValue := List Double

/-- A `Control*`: the index of a cell of the control store. -/
abbrev ControlPtr := Nat

/-- The control objects allocated so far; a freed object leaves `none` behind. -/
structure ControlStore where
  cells : List (Option ControlValue)
deriving DecidableEq, Repr

namespace ControlStore

/-- The values behind a pointer, `none` when the pointer is not a live control. -/
def read (m : ControlStore) (p : ControlPtr) : Option ControlValue := (m.cells[p]?).join

/-- Overwrite the values behind a pointer. -/
def write (m : ControlStore) (p : ControlPtr) (v : ControlValue) : ControlStore :=
  { cells := m.cells.set p (some v) }

/-- Modelled from the spec: `SpaceInformation::allocControl`, defined outside the given
sources; it returns a new control object, distinct from every earlier one, whose values are
indeterminate (`junk`). -/
def allocControl (m : ControlStore) (junk : ControlValue) : ControlStore × ControlPtr :=
  ({ cells := m.cells ++ [some junk] }, m.cells.length)

/-- Modelled from the spec: `SpaceInformation::cloneControl`, defined outside the given
sources; it returns a new control object holding a copy of the values of the source. -/
def cloneControl (m : ControlStore) (source : ControlPtr) : Option (ControlStore × ControlPtr) :=
  match m.read source with
  | some v => some ({ cells := m.cells ++ [some v] }, m.cells.length)
  | none => none

/-- Modelled from the spec: `SpaceInformation::freeControl`, defined outside the given
sources; the object stops being live. -/
def freeControl (m : ControlStore) (p : ControlPtr) : ControlStore :=
  { cells := m.cells.set p none }

/-- Modelled from the spec: `SpaceInformation::nullControl`, defined outside the given
sources; it overwrites the values with those of the null control of the control space
(`nullValue`). -/
def nullControl (m : ControlStore) (p : ControlPtr) (nullValue : ControlValue) : ControlStore :=
  m.write p nullValue

end ControlStore

/-- A control-path with every stored control pointer replaced by what it points to: the
values of a live control, `none` for a pointer that is not a live control. -/
def PathControl.deref {S : Type} (m : ControlStore) (p : PathControl S ControlPtr) :
    PathControl S (Option ControlValue) :=
  { states_ := p.states_, controls_ := p.controls_.map m.read,
    controlDurations_ := p.controlDurations_ }

namespace MorseSimpleSetup

variable {W S C V P B : Type}

/-- The constructor `MorseSimpleSetup::MorseSimpleSetup(env)`.  The base-class constructor
`SimpleSetup(ControlSpacePtr)` is outside the given sources, so the object it leaves
(`si`, `pdef`, `rest`) is taken as given; the body then sets the step size and the
minimum and maximum control duration from the environment.  (Installing the state
propagator is the field `propagate` of `Collaborators`.) -/
def construct (si : SpaceInformation V P) (pdef : ProblemDefinition S) (rest : B)
    (env : base.MorseEnvironment) : MorseSimpleSetup S V P B :=
  { env_ := env,
    si_ := (si.setPropagationStepSize env.stepSize_).setMinMaxControlDuration
             env.minControlSteps_ env.maxControlSteps_,
    pdef_ := pdef,
    simpleSetup_ := rest }

/-- The member function `getCurrentState`: allocate a scoped state, `readState` into it,
return it. -/
def getCurrentState (k : Collaborators W S C) (σ : Sim W S C) : S × Sim W S C :=
  σ.readState k

/-- The member function `setCurrentState`: `writeState` of the given state. -/
def setCurrentState (k : Collaborators W S C) (σ : Sim W S C) (state : S) : Sim W S C :=
  σ.writeState k state

/-- The member function `setup`.  The three guarded defaults run in source order, then the
base-class `SimpleSetup::setup()`, which is outside the given sources and is the argument
`simpleSetupSetup`. -/
def setup (k : Collaborators W S C)
    (simpleSetupSetup : MorseSimpleSetup S V P B → Sim W S C → MorseSimpleSetup S V P B × Sim W S C)
    (self : MorseSimpleSetup S V P B) (σ : Sim W S C) : MorseSimpleSetup S V P B × Sim W S C :=
  let self1 :=
    if self.si_.stateValidityChecker_.isNone then
      { self with si_ := self.si_.setStateValidityChecker
                           StateValidityChecker.morseStateValidityChecker }
    else self
  let self2 :=
    if !self1.si_.hasDefaultProjection then
      { self1 with si_ := self1.si_.registerDefaultProjection
                            ProjectionEvaluator.morseProjection }
    else self1
  if self2.pdef_.getStartStateCount = 0 then
    let current := getCurrentState k σ
    simpleSetupSetup { self2 with pdef_ := self2.pdef_.addStartState current.1 } current.2
  else
    simpleSetupSetup self2 σ

/-- The loop of the control-path branch of `playPath`,
`for (i = 0; i < pc->getControlCount(); i++) propagate(getState(i), getControl(i),
getControlDuration(i), result)`, entered with counter value `i`.  It yields the counter
value and the world at exit.  The three accessors index their vectors unchecked. -/
def playPathControlLoop (k : Collaborators W S C) (pc : PathControl S C) :
    Nat → Nat → Sim W S C → Nat × Sim W S C × Status
  | 0, i, σ => (i, σ, Status.outOfFuel)
  | fuel + 1, i, σ =>
    if i < pc.getControlCount then
      match pc.states_[i]?, pc.controls_[i]?, pc.controlDurations_[i]? with
      | some s, some c, some d =>
        playPathControlLoop k pc fuel ((i + 1) % 2 ^ 32) (σ.propagate k s c d).2
      | _, _, _ => (i, σ, Status.outOfRange)
    else (i, σ, Status.returned)

/-- The loop of the geometric-path branch of `playPath`,
`for (unsigned int i = 1; i < pg->getStateCount(); ++i) { worldStep(d); writeState(getState(i)); }`,
entered with counter value `i`. -/
def playPathGeometricLoop (k : Collaborators W S C) (pg : PathGeometric S) (d : Double) :
    Nat → Nat → Sim W S C → Sim W S C × Status
  | 0, _, σ => (σ, Status.outOfFuel)
  | fuel + 1, i, σ =>
    if i < pg.getStateCount then
      match pg.states_[i]? with
      | some s =>
        playPathGeometricLoop k pg d fuel ((i + 1) % 2 ^ 32) ((σ.worldStep k d).writeState k s)
      | none => (σ.worldStep k d, Status.outOfRange)
    else (σ, Status.returned)

/-- The member function `playPath`.  The scratch state `result` of the control branch only
receives the outcome of each propagation and is never read; the log line of the geometric
branch is not a call on the world; both are left out. -/
def playPath (k : Collaborators W S C) (self : MorseSimpleSetup S V P B) (fuel : Nat)
    (path : PathPtr S C) (σ : Sim W S C) : Sim W S C × Status :=
  match path with
  | some (Path.control pc) =>
    match playPathControlLoop k pc fuel 0 σ with
    | (i, σ1, Status.returned) =>
      match pc.states_[i]? with
      | some s => (σ1.writeState k s, Status.returned)
      | none => (σ1, Status.outOfRange)
    | (_, σ1, status) => (σ1, status)
  | some (Path.geometric pg) =>
    if pg.getStateCount > 0 then
      let d := self.si_.getPropagationStepSize
      match pg.states_[0]? with
      | some s0 => playPathGeometricLoop k pg d fuel 1 (σ.writeState k s0)
      | none => (σ, Status.outOfRange)
    else (σ, Status.returned)
  | _ => (σ, Status.threw (Exception.mk "Unknown type of path"))

/-- The calls `propagate(state_i, control_i, duration_i)` for `i = 0, 1, ...` in increasing
order, for as long as all three sequences have an entry. -/
def propagateCalls : List S → List C → List Double → List (Event S C)
  | s :: ss, c :: cs, d :: ds => Event.propagate s c d :: propagateCalls ss cs ds
  | _, _, _ => []

/-- For each state in order, a `worldStep(d)` followed by the `writeState` of that state. -/
def stepWriteCalls (d : Double) : List S → List (Event S C)
  | [] => []
  | s :: ss => Event.worldStep d :: Event.writeState s :: stepWriteCalls d ss

/-- The calls the spec lists for a geometric path: none for no states, otherwise the
`writeState` of the first state and then a step and a write for every later state. -/
def geometricCalls (d : Double) : List S → List (Event S C)
  | [] => []
  | s0 :: rest => Event.writeState s0 :: stepWriteCalls d rest

/-- Whether an event is a `worldStep` call. -/
def isWorldStep : Event S C → Bool
  | Event.worldStep _ => true
  | _ => false

/-- Whether an event is a `readState` call. -/
def isReadState : Event S C → Bool
  | Event.readState => true
  | _ => false

/-- The assumption made on the base-class `SimpleSetup::setup()`, which is outside the given
sources: it leaves the validity checker, the default projection and the start states as
they are and makes no `readState` call. -/
def KeepsConfiguration
    (f : MorseSimpleSetup S V P B → Sim W S C → MorseSimpleSetup S V P B × Sim W S C) : Prop :=
  ∀ (self : MorseSimpleSetup S V P B) (σ : Sim W S C),
    (f self σ).1.si_.stateValidityChecker_ = self.si_.stateValidityChecker_ ∧
    (f self σ).1.si_.defaultProjection_ = self.si_.defaultProjection_ ∧
    (f self σ).1.pdef_.startStates_ = self.pdef_.startStates_ ∧
    (f self σ).2.trace.countP isReadState = σ.trace.countP isReadState

/-- A stand-in for the base-class `SimpleSetup::setup()`, used to run the code on concrete
inputs: it sets the configured flag and does nothing else. -/
def mockSimpleSetupSetup (self : MorseSimpleSetup S V P Bool) (σ : Sim W S C) :
    MorseSimpleSetup S V P Bool × Sim W S C :=
  ({ self with simpleSetup_ := true }, σ)

/-- Whether every `worldStep` of a trace is made while the guard is held; `held` tells
whether the guard is held when the trace starts. -/
def worldStepsGuarded : Bool → List (Event S C) → Bool
  | _, [] => true
  | _, Event.lock :: rest => worldStepsGuarded true rest
  | _, Event.unlock :: rest => worldStepsGuarded false rest
  | held, Event.worldStep _ :: rest => held && worldStepsGuarded held rest
  | held, _ :: rest => worldStepsGuarded held rest

/-- A stand-in for the simulator, used to run the code on concrete inputs: the world is one
number, reading returns it, writing replaces it, a world step adds one, a propagation
restarts from the given state and adds one (or the signed step count, stopping at zero). -/
def mockWorld : Collaborators Nat Nat C where
  readState := fun w => w
  writeState := fun _ s => s
  applyControl := fun w _ => w
  worldStep := fun w _ => w + 1
  propagate := fun _ s _ _ => (s + 1, s + 1)
  siPropagate := fun _ s _ steps => (((s : Int) + steps).toNat, ((s : Int) + steps).toNat)

/-- A `MorseSimpleSetup` built by the constructor from an environment with step size
`max()`, used to run the code on concrete inputs. -/
def mockSetup : MorseSimpleSetup Nat Unit Unit Unit :=
  construct ⟨Double.zero, 1, 1, none, none, 2⟩ ⟨[]⟩ ()
    ⟨2, [], 1, [], [], [], Double.max, 1, 2, true⟩

/-- The member function `simulateControl(const Control* control, unsigned int steps)`.
The propagator is given the values behind `control` and the step count converted to the
`int` parameter of `SpaceInformation::propagate`; the returned path stores the pointer
returned by `cloneControl` and the step count converted to `double`. -/
def simulateControl (k : Collaborators W S ControlValue) (m : ControlStore)
    (σ : Sim W S ControlValue) (control : ControlPtr) (steps : Nat) :
    Option (PathControl S ControlPtr × ControlStore × Sim W S ControlValue) :=
  let p : PathControl S ControlPtr := { states_ := [], controls_ := [], controlDurations_ := [] }
  let r0 := σ.readState k
  let s0 := r0.1
  let p := { p with states_ := p.states_ ++ [s0] }
  match m.read control with
  | none => none
  | some v =>
    let r1 := r0.2.siPropagate k s0 v (unsignedToInt steps)
    let s1 := r1.1
    let p := { p with states_ := p.states_ ++ [s1] }
    match m.cloneControl control with
    | none => none
    | some (m1, c1) =>
      let p := { p with controls_ := p.controls_ ++ [c1] }
      let p := { p with controlDurations_ := p.controlDurations_ ++ [Double.ofUInt32 steps] }
      some (p, m1, r1.2)

/-- The member function `simulateControl(const double* control, unsigned int steps)`:
allocate a control, `memcpy` the first `getDimension()` doubles of the array into it,
simulate, free the control.  Reading past the end of the array gives `none`. -/
def simulateControlRaw (k : Collaborators W S ControlValue) (self : MorseSimpleSetup S V P B)
    (junk : ControlValue) (m : ControlStore) (σ : Sim W S ControlValue)
    (control : List Double) (steps : Nat) :
    Option (PathControl S ControlPtr × ControlStore × Sim W S ControlValue) :=
  let a := m.allocControl junk
  let c := a.2
  if control.length < self.si_.dimension_ then none
  else
    let m1 := a.1.write c (control.take self.si_.dimension_)
    match simulateControl k m1 σ c steps with
    | none => none
    | some (path, m2, σ1) => some (path, m2.freeControl c, σ1)

/-- The member function `simulate(unsigned int steps)`: allocate a control, make it the null
control, simulate, free the control. -/
def simulate (k : Collaborators W S ControlValue) (nullValue junk : ControlValue)
    (m : ControlStore) (σ : Sim W S ControlValue) (steps : Nat) :
    Option (PathControl S ControlPtr × ControlStore × Sim W S ControlValue) :=
  let a := m.allocControl junk
  let c := a.2
  let m1 := a.1.nullControl c nullValue
  match simulateControl k m1 σ c steps with
  | none => none
  | some (path, m2, σ1) => some (path, m2.freeControl c, σ1)

end MorseSimpleSetup

end control

end ompl

/-! # Properties -/

namespace ompl

namespace Double

theorem eq_infinity_iff (x : Double) : Double.eq x infinity = true ↔ x = infinity := by
  rcases x with ⟨s, e, m⟩
  constructor
  · intro h
    simp only [Double.eq, isNaN, isZero, infinity] at h
    split at h
    · exact absurd h (by simp)
    · split at h
      · rename_i h0
        simp at h0
      · simpa [infinity] using h
  · intro h
    rw [h]
    decide

theorem eq_neg_infinity_iff (x : Double) :
    Double.eq x (neg infinity) = true ↔ x = neg infinity := by
  rcases x with ⟨s, e, m⟩
  constructor
  · intro h
    simp only [Double.eq, isNaN, isZero, infinity, neg] at h
    split at h
    · exact absurd h (by simp)
    · split at h
      · rename_i h0
        simp at h0
      · simpa [infinity, neg] using h
  · intro h
    rw [h]
    decide

/-- Halving a finite value of binade 53 or above is exact. -/
theorem toRat_div2_of_large (d : Double) (hlo : 1076 ≤ d.exponent) (hhi : d.exponent < 2047) :
    toRat (div2 d) = toRat d / 2 := by
  rcases d with ⟨s, e, m⟩
  simp only at hlo hhi
  have he : e - 1075 = (e - 1 - 1075) + 1 := by omega
  have hpow : (2 : ℚ) ^ (e - 1075) = 2 ^ (e - 1 - 1075) * 2 := by
    conv_lhs => rw [he]
    exact pow_succ _ _
  have c1 : ¬ e = 2047 := by omega
  have c2 : 2 ≤ e := by omega
  have c3 : ¬ e - 1 = 0 := by omega
  have c4 : ¬ e - 1 < 1075 := by omega
  have c5 : ¬ e = 0 := by omega
  have c6 : ¬ e < 1075 := by omega
  simp only [toRat, div2, if_neg c1, if_pos c2, if_neg c3, if_neg c4, if_neg c5, if_neg c6,
    hpow]
  cases s <;> simp <;> ring

/-- The value `max()/2` is half of `max()`. -/
theorem toRat_div2_max : toRat (div2 max) = toRat max / 2 :=
  toRat_div2_of_large max (by decide) (by decide)

/-- Clamping constants are well-formed bit patterns. -/
theorem wellFormed_div2_max : WellFormed (div2 max) ∧ WellFormed (div2 (neg max)) := by
  decide

/-- The conversion from `unsigned int` yields a well-formed bit pattern. -/
theorem wellFormed_ofUInt32 (n : Nat) (h : n < 2 ^ 32) : WellFormed (ofUInt32 n) := by
  by_cases h0 : n = 0
  · subst h0
    decide
  · have hl : Nat.log2 n < 32 := (Nat.log2_lt h0).2 h
    have hle : 2 ^ Nat.log2 n ≤ n := Nat.log2_self_le h0
    have hlt : n < 2 ^ (Nat.log2 n + 1) := Nat.lt_log2_self
    have h52 : (2 : Nat) ^ 52 = 2 ^ Nat.log2 n * 2 ^ (52 - Nat.log2 n) := by
      rw [← pow_add]
      congr 1
      omega
    have hsub : n - 2 ^ Nat.log2 n < 2 ^ Nat.log2 n := by
      rw [pow_succ] at hlt
      omega
    simp only [ofUInt32, if_neg h0, WellFormed]
    refine ⟨by omega, ?_⟩
    rw [h52]
    exact Nat.mul_lt_mul_of_pos_right hsub (pow_pos (by norm_num) _)

theorem isInfinite_iff (x : Double) :
    x.isInfinite = true ↔ x = infinity ∨ x = neg infinity := by
  rcases x with ⟨s, e, m⟩
  cases s <;> simp [isInfinite, infinity, neg]

end Double

namespace base

namespace MorseEnvironment

theorem clampEntry_eq (x : Double) :
    clampEntry x = if x = Double.infinity then Double.div2 Double.max
      else if x = Double.neg Double.infinity then Double.div2 (Double.neg Double.max)
      else x := by
  unfold clampEntry
  by_cases h1 : x = Double.infinity
  · rw [if_pos ((Double.eq_infinity_iff x).2 h1), if_pos h1]
  · have h1f : ¬ Double.eq x Double.infinity = true := fun h => h1 ((Double.eq_infinity_iff x).1 h)
    rw [if_neg h1f, if_neg h1]
    by_cases h2 : x = Double.neg Double.infinity
    · rw [if_pos ((Double.eq_neg_infinity_iff x).2 h2), if_pos h2]
    · have h2f : ¬ Double.eq x (Double.neg Double.infinity) = true :=
        fun h => h2 ((Double.eq_neg_infinity_iff x).1 h)
      rw [if_neg h2f, if_neg h2]

theorem clampEntry_not_infinite (x : Double) : (clampEntry x).isInfinite = false := by
  rw [clampEntry_eq]
  split
  · decide
  · split
    · decide
    · rename_i h1 h2
      cases h : x.isInfinite
      · rfl
      · rcases (Double.isInfinite_iff x).1 h with h3 | h3
        · exact absurd h3 h1
        · exact absurd h3 h2

/-- The loop entered at the end of `done` with `todo` still ahead clamps every entry of
`todo` and leaves `done` alone, when the vector is shorter than `2 ^ 32` and the budget
covers the remaining entries. -/
theorem clampLoop_append (fuel : Nat) (done todo : List Double)
    (hlen : (done ++ todo).length < 2 ^ 32) (hfuel : todo.length < fuel) :
    clampLoop fuel done.length (done ++ todo) = some (done ++ todo.map clampEntry) := by
  induction fuel generalizing done todo with
  | zero => omega
  | succ fuel ih =>
    cases todo with
    | nil => simp [clampLoop]
    | cons x xs =>
      have hi : done.length < (done ++ x :: xs).length := by simp
      have hget : (done ++ x :: xs)[done.length] = x := by
        rw [List.getElem_append_right (le_refl _)]
        simp
      have hmod : (done.length + 1) % 2 ^ 32 = (done ++ [clampEntry x]).length := by
        simp only [List.length_append, List.length_cons] at hlen
        rw [Nat.mod_eq_of_lt (by omega)]
        simp
      have hrest : (done ++ [clampEntry x] ++ xs).length < 2 ^ 32 := by
        simpa using hlen
      have hfuel2 : xs.length < fuel := by
        simp only [List.length_cons] at hfuel
        omega
      have key := ih (done ++ [clampEntry x]) xs hrest hfuel2
      have hset : ∀ v, (done ++ x :: xs).set done.length v = done ++ [v] ++ xs := by
        intro v
        simp
      unfold clampLoop
      rw [dif_pos hi, hget]
      simp only [List.map_cons]
      by_cases h1 : Double.eq x Double.infinity = true
      · rw [if_pos h1, hset]
        have hc : clampEntry x = Double.div2 Double.max := by simp [clampEntry, h1]
        rw [hmod, hc]
        rw [hc] at key
        rw [key]
        simp
      · rw [if_neg h1]
        by_cases h2 : Double.eq x (Double.neg Double.infinity) = true
        · rw [if_pos h2, hset]
          have hc : clampEntry x = Double.div2 (Double.neg Double.max) := by
            simp [clampEntry, h1, h2]
          rw [hmod, hc]
          rw [hc] at key
          rw [key]
          simp
        · rw [if_neg h2]
          have hc : clampEntry x = x := by simp [clampEntry, h1, h2]
          have e : done ++ x :: xs = done ++ [x] ++ xs := by simp
          rw [hmod, hc, e]
          rw [hc] at key
          rw [key]
          simp


/-- On a vector of `2 ^ 32` or more entries the 32-bit counter wraps to zero before it can
reach the size, so the loop uses up every budget. -/
theorem clampLoop_wraps (fuel i : Nat) (bounds : List Double) (hi : i < 2 ^ 32)
    (hlen : 2 ^ 32 ≤ bounds.length) : clampLoop fuel i bounds = none := by
  induction fuel generalizing i bounds with
  | zero => rfl
  | succ fuel ih =>
    have hlt : i < bounds.length := by omega
    have hnext : (i + 1) % 2 ^ 32 < 2 ^ 32 := Nat.mod_lt _ (by norm_num)
    unfold clampLoop
    rw [dif_pos hlt]
    split
    · exact ih _ _ hnext (by rw [List.length_set]; exact hlen)
    · split
      · exact ih _ _ hnext (by rw [List.length_set]; exact hlen)
      · exact ih _ _ hnext hlen

/-- A loop entered at counter zero on a vector shorter than `2 ^ 32` returns the vector with
every entry clamped, for every budget above the length. -/
theorem clampLoop_eq_map (fuel : Nat) (bounds : List Double) (hlen : bounds.length < 2 ^ 32)
    (hfuel : bounds.length < fuel) : clampLoop fuel 0 bounds = some (bounds.map clampEntry) := by
  have h := clampLoop_append fuel [] bounds (by simpa using hlen) hfuel
  simpa using h

theorem clampedCopy_map (input : List Double) : ClampedCopy input (input.map clampEntry) := by
  refine ⟨by simp, ?_, ?_⟩
  · intro i x hx
    rw [List.getElem?_map, hx, Option.map_some', clampEntry_eq]
  · intro y hy
    rcases List.mem_map.1 hy with ⟨x, _, rfl⟩
    exact clampEntry_not_infinite x


/-- Every part of the constructor result other than the three clamped vectors is the
argument it was initialised from, whenever the constructor returns. -/
theorem construct_fields (fuel controlDim : Nat) (controlBounds : List Double)
    (rigidBodies : Nat) (positionBounds linvelBounds angvelBounds : List Double)
    (stepSize : Double) (minControlSteps maxControlSteps : Nat) (env : MorseEnvironment)
    (h : construct fuel controlDim controlBounds rigidBodies positionBounds linvelBounds
      angvelBounds stepSize minControlSteps maxControlSteps = some env) :
    env.controlDim_ = controlDim ∧ env.controlBounds_ = controlBounds ∧
    env.rigidBodies_ = rigidBodies ∧ env.stepSize_ = stepSize ∧
    env.minControlSteps_ = minControlSteps ∧ env.maxControlSteps_ = maxControlSteps ∧
    env.simRunning_ = true := by
  unfold construct at h
  split at h
  · exact absurd h (by simp)
  · split at h
    · exact absurd h (by simp)
    · split at h
      · exact absurd h (by simp)
      · simp only [Option.some.injEq] at h
        subst h
        simp

/-- C1, amended.  For bounds vectors of fewer than `2 ^ 32` entries and a step budget above
their lengths, the constructor returns a descriptor whose `positionBounds_`,
`linvelBounds_` and `angvelBounds_` are clamped copies of the arguments: same length,
`+infinity` replaced by `max()/2`, `-infinity` by `-max()/2`, every other entry kept, and
no stored entry infinite. -/
theorem construct_clamps_bounds (fuel controlDim : Nat) (controlBounds : List Double)
    (rigidBodies : Nat) (positionBounds linvelBounds angvelBounds : List Double)
    (stepSize : Double) (minControlSteps maxControlSteps : Nat)
    (hpos : positionBounds.length < 2 ^ 32) (hlin : linvelBounds.length < 2 ^ 32)
    (hang : angvelBounds.length < 2 ^ 32)
    (hfpos : positionBounds.length < fuel) (hflin : linvelBounds.length < fuel)
    (hfang : angvelBounds.length < fuel) :
    ∃ env, construct fuel controlDim controlBounds rigidBodies positionBounds linvelBounds
        angvelBounds stepSize minControlSteps maxControlSteps = some env ∧
      ClampedCopy positionBounds env.positionBounds_ ∧
      ClampedCopy linvelBounds env.linvelBounds_ ∧
      ClampedCopy angvelBounds env.angvelBounds_ := by
  unfold construct
  rw [clampLoop_eq_map fuel positionBounds hpos hfpos,
    clampLoop_eq_map fuel linvelBounds hlin hflin,
    clampLoop_eq_map fuel angvelBounds hang hfang]
  exact ⟨_, rfl, clampedCopy_map _, clampedCopy_map _, clampedCopy_map _⟩

/-- C1, witness: the amended statement at position bounds `[+inf, 0]`, linear velocity
bounds `[-inf]` and no angular velocity bounds. -/
theorem construct_clamps_bounds_witness :
    ∃ env, construct 3 1 [] 1 [Double.infinity, Double.zero] [Double.neg Double.infinity] []
        Double.zero 1 2 = some env ∧
      ClampedCopy [Double.infinity, Double.zero] env.positionBounds_ ∧
      ClampedCopy [Double.neg Double.infinity] env.linvelBounds_ ∧
      ClampedCopy [] env.angvelBounds_ :=
  construct_clamps_bounds 3 1 [] 1 [Double.infinity, Double.zero]
    [Double.neg Double.infinity] [] Double.zero 1 2
    (by norm_num) (by norm_num) (by norm_num) (by decide) (by decide) (by decide)

/-- C1, counterexample: with position bounds of `2 ^ 32` entries the constructor produces
no descriptor, whatever the step budget. -/
theorem construct_diverges_at_two_pow_32 :
    ¬ ∃ fuel env, construct fuel 1 [] 1 (List.replicate (2 ^ 32) Double.zero) [] []
        Double.zero 1 2 = some env := by
  rintro ⟨fuel, env, h⟩
  unfold construct at h
  rw [clampLoop_wraps fuel 0 _ (by norm_num) (by rw [List.length_replicate])] at h
  exact absurd h (by simp)

/-- C7, amended.  Whenever the constructor returns, `minControlSteps_` and
`maxControlSteps_` are the supplied arguments, unchecked; so `minControlSteps_ ≤
maxControlSteps_` holds after construction exactly when the arguments satisfy it; and the
constructor of `MorseSimpleSetup` hands the same two values to the planning session. -/
theorem construct_stores_control_steps {S V P B : Type} (fuel controlDim : Nat)
    (controlBounds : List Double) (rigidBodies : Nat)
    (positionBounds linvelBounds angvelBounds : List Double)
    (stepSize : Double) (minControlSteps maxControlSteps : Nat) (env : MorseEnvironment)
    (si : control.SpaceInformation V P) (pdef : control.ProblemDefinition S) (rest : B)
    (h : construct fuel controlDim controlBounds rigidBodies positionBounds linvelBounds
      angvelBounds stepSize minControlSteps maxControlSteps = some env) :
    env.minControlSteps_ = minControlSteps ∧ env.maxControlSteps_ = maxControlSteps ∧
    (env.minControlSteps_ ≤ env.maxControlSteps_ ↔ minControlSteps ≤ maxControlSteps) ∧
    (control.MorseSimpleSetup.construct si pdef rest env).si_.minSteps_ = minControlSteps ∧
    (control.MorseSimpleSetup.construct si pdef rest env).si_.maxSteps_ = maxControlSteps := by
  have hf := construct_fields fuel controlDim controlBounds rigidBodies positionBounds
    linvelBounds angvelBounds stepSize minControlSteps maxControlSteps env h
  obtain ⟨-, -, -, -, hmin, hmax, -⟩ := hf
  exact ⟨hmin, hmax, by rw [hmin, hmax], hmin, hmax⟩

/-- C7, witness: the amended statement at a constructor call with no bounds entries,
minimum 1 and maximum 2. -/
theorem construct_stores_control_steps_witness :
    ∃ env, construct 1 1 [] 1 [] [] [] Double.zero 1 2 = some env ∧
      (env.minControlSteps_ = 1 ∧ env.maxControlSteps_ = 2 ∧
        (env.minControlSteps_ ≤ env.maxControlSteps_ ↔ 1 ≤ 2) ∧
        (control.MorseSimpleSetup.construct
          (⟨Double.zero, 0, 0, none, none, 1⟩ : control.SpaceInformation Unit Unit)
          (⟨[]⟩ : control.ProblemDefinition Nat) () env).si_.minSteps_ = 1 ∧
        (control.MorseSimpleSetup.construct
          (⟨Double.zero, 0, 0, none, none, 1⟩ : control.SpaceInformation Unit Unit)
          (⟨[]⟩ : control.ProblemDefinition Nat) () env).si_.maxSteps_ = 2) :=
  ⟨⟨1, [], 1, [], [], [], Double.zero, 1, 2, true⟩, rfl,
    construct_stores_control_steps 1 1 [] 1 [] [] [] Double.zero 1 2
      ⟨1, [], 1, [], [], [], Double.zero, 1, 2, true⟩ _ _ _ rfl⟩

/-- C7, counterexample: the constructor accepts minimum 5 and maximum 1 and returns a
descriptor in which `minControlSteps_ ≤ maxControlSteps_` fails. -/
theorem construct_accepts_min_above_max :
    ∃ env, construct 1 1 [] 1 [] [] [] Double.zero 5 1 = some env ∧
      ¬ env.minControlSteps_ ≤ env.maxControlSteps_ :=
  ⟨⟨1, [], 1, [], [], [], Double.zero, 5, 1, true⟩, rfl, by decide⟩

end MorseEnvironment

end base

namespace control

namespace MorseSimpleSetup

variable {W S C V P B : Type}

theorem propagateCalls_nil_controls (ss : List S) (ds : List Double) :
    propagateCalls ss ([] : List C) ds = [] := by
  cases ss <;> cases ds <;> rfl

/-- The control loop on a path with enough states and durations, entered at `i` with a
budget above the remaining count: it leaves with the counter at the control count, having
made exactly the remaining `propagate` calls in order. -/
theorem playPathControlLoop_run (k : Collaborators W S C) (pc : PathControl S C)
    (hs : pc.controls_.length ≤ pc.states_.length)
    (hd : pc.controls_.length ≤ pc.controlDurations_.length)
    (h32 : pc.controls_.length < 2 ^ 32) (fuel : Nat) :
    ∀ (i : Nat) (σ : Sim W S C), i ≤ pc.controls_.length → pc.controls_.length - i < fuel →
      ∃ w, playPathControlLoop k pc fuel i σ =
        (pc.controls_.length,
         ⟨w, σ.trace ++ propagateCalls (pc.states_.drop i) (pc.controls_.drop i)
               (pc.controlDurations_.drop i)⟩,
         Status.returned) := by
  induction fuel with
  | zero => intro i σ _ hf; omega
  | succ fuel ih =>
    intro i σ hi hf
    by_cases hlt : i < pc.controls_.length
    · have hs1 : i < pc.states_.length := by omega
      have hd1 : i < pc.controlDurations_.length := by omega
      obtain ⟨w, hw⟩ := ih (i + 1)
        (σ.propagate k pc.states_[i] pc.controls_[i] pc.controlDurations_[i]).2
        (by omega) (by omega)
      refine ⟨w, ?_⟩
      unfold playPathControlLoop
      simp only [PathControl.getControlCount, hlt, if_true, List.getElem?_eq_getElem hs1,
        List.getElem?_eq_getElem hlt, List.getElem?_eq_getElem hd1]
      rw [Nat.mod_eq_of_lt (by omega), hw]
      rw [List.drop_eq_getElem_cons hs1, List.drop_eq_getElem_cons hlt,
        List.drop_eq_getElem_cons hd1]
      simp [Sim.propagate, propagateCalls]
    · have hik : i = pc.controls_.length := by omega
      refine ⟨σ.world, ?_⟩
      unfold playPathControlLoop
      simp only [PathControl.getControlCount, hlt, if_false]
      rw [hik, List.drop_length, propagateCalls_nil_controls]
      simp

/-- The control loop never ends by throwing. -/
theorem playPathControlLoop_not_threw (k : Collaborators W S C) (pc : PathControl S C)
    (fuel : Nat) : ∀ (i : Nat) (σ : Sim W S C) (e : Exception),
      (playPathControlLoop k pc fuel i σ).2.2 ≠ Status.threw e := by
  induction fuel with
  | zero => intro i σ e; simp [playPathControlLoop]
  | succ fuel ih =>
    intro i σ e
    unfold playPathControlLoop
    split
    · split
      · exact ih _ _ e
      · simp
    · simp

/-- With enough states and durations the control loop never indexes out of range, whatever
the budget. -/
theorem playPathControlLoop_in_range (k : Collaborators W S C) (pc : PathControl S C)
    (hs : pc.controls_.length ≤ pc.states_.length)
    (hd : pc.controls_.length ≤ pc.controlDurations_.length) (fuel : Nat) :
    ∀ (i : Nat) (σ : Sim W S C),
      (playPathControlLoop k pc fuel i σ).2.2 ≠ Status.outOfRange := by
  induction fuel with
  | zero => intro i σ; simp [playPathControlLoop]
  | succ fuel ih =>
    intro i σ
    unfold playPathControlLoop
    by_cases hlt : i < pc.getControlCount
    · have hc : i < pc.controls_.length := hlt
      have hs1 : i < pc.states_.length := by omega
      have hd1 : i < pc.controlDurations_.length := by omega
      simp only [hlt, if_true, List.getElem?_eq_getElem hs1,
        List.getElem?_eq_getElem hc, List.getElem?_eq_getElem hd1]
      exact ih _ _
    · simp [hlt]

/-- When the states or the durations run out before the controls do, the control loop
indexes out of range once the counter reaches the shorter of the two. -/
theorem playPathControlLoop_short (k : Collaborators W S C) (pc : PathControl S C)
    (j : Nat) (hj : j = min pc.states_.length pc.controlDurations_.length)
    (hjk : j < pc.controls_.length) (h32 : j < 2 ^ 32) (fuel : Nat) :
    ∀ (i : Nat) (σ : Sim W S C), i ≤ j → j - i < fuel →
      (playPathControlLoop k pc fuel i σ).2.2 = Status.outOfRange := by
  induction fuel with
  | zero => intro i σ _ hf; omega
  | succ fuel ih =>
    intro i σ hi hf
    have hc : i < pc.controls_.length := by omega
    unfold playPathControlLoop
    by_cases hij : i < j
    · have hs1 : i < pc.states_.length := by omega
      have hd1 : i < pc.controlDurations_.length := by omega
      simp only [PathControl.getControlCount, hc, if_true, List.getElem?_eq_getElem hs1,
        List.getElem?_eq_getElem hc, List.getElem?_eq_getElem hd1]
      rw [Nat.mod_eq_of_lt (by omega)]
      exact ih _ _ (by omega) (by omega)
    · have hij2 : i = j := by omega
      simp only [PathControl.getControlCount, hc, if_true]
      by_cases hs1 : i < pc.states_.length
      · have hd1 : pc.controlDurations_.length ≤ i := by omega
        rw [List.getElem?_eq_none hd1]
        split
        · rename_i h1 h2 h3
          simp at h3
        · rfl
      · rw [List.getElem?_eq_none (by omega : pc.states_.length ≤ i)]

/-- With `2 ^ 32` or more controls, states and durations the 32-bit counter wraps to zero
before it can reach the control count, so the control loop uses up every budget. -/
theorem playPathControlLoop_wraps (k : Collaborators W S C) (pc : PathControl S C)
    (hc : 2 ^ 32 ≤ pc.controls_.length) (hs : 2 ^ 32 ≤ pc.states_.length)
    (hd : 2 ^ 32 ≤ pc.controlDurations_.length) (fuel : Nat) :
    ∀ (i : Nat) (σ : Sim W S C), i < 2 ^ 32 →
      (playPathControlLoop k pc fuel i σ).2.2 = Status.outOfFuel := by
  induction fuel with
  | zero => intro i σ _; rfl
  | succ fuel ih =>
    intro i σ hi
    have hc1 : i < pc.controls_.length := by omega
    have hs1 : i < pc.states_.length := by omega
    have hd1 : i < pc.controlDurations_.length := by omega
    unfold playPathControlLoop
    simp only [PathControl.getControlCount, hc1, if_true, List.getElem?_eq_getElem hs1,
      List.getElem?_eq_getElem hc1, List.getElem?_eq_getElem hd1]
    exact ih _ _ (Nat.mod_lt _ (by norm_num))

/-- The geometric loop on a path of fewer than `2 ^ 32` states, entered at `i` with a budget
above the remaining count: it returns, having made a `worldStep(d)` and a `writeState` for
each remaining state in order. -/
theorem playPathGeometricLoop_run (k : Collaborators W S C) (pg : PathGeometric S) (d : Double)
    (h32 : pg.states_.length < 2 ^ 32) (fuel : Nat) :
    ∀ (i : Nat) (σ : Sim W S C), i ≤ pg.states_.length → pg.states_.length - i < fuel →
      ∃ w, playPathGeometricLoop k pg d fuel i σ =
        (⟨w, σ.trace ++ stepWriteCalls d (pg.states_.drop i)⟩, Status.returned) := by
  induction fuel with
  | zero => intro i σ _ hf; omega
  | succ fuel ih =>
    intro i σ hi hf
    by_cases hlt : i < pg.states_.length
    · obtain ⟨w, hw⟩ := ih (i + 1) ((σ.worldStep k d).writeState k pg.states_[i])
        (by omega) (by omega)
      refine ⟨w, ?_⟩
      unfold playPathGeometricLoop
      simp only [PathGeometric.getStateCount, hlt, if_true, List.getElem?_eq_getElem hlt]
      rw [Nat.mod_eq_of_lt (by omega), hw, List.drop_eq_getElem_cons hlt]
      simp [Sim.worldStep, Sim.writeState, stepWriteCalls]
    · have hik : i = pg.states_.length := by omega
      refine ⟨σ.world, ?_⟩
      unfold playPathGeometricLoop
      simp only [PathGeometric.getStateCount, hlt, if_false]
      rw [hik, List.drop_length]
      simp [stepWriteCalls]

/-- With `2 ^ 32` or more states the 32-bit counter wraps to zero before it can reach the
state count, so the geometric loop uses up every budget. -/
theorem playPathGeometricLoop_wraps (k : Collaborators W S C) (pg : PathGeometric S)
    (d : Double) (hn : 2 ^ 32 ≤ pg.states_.length) (fuel : Nat) :
    ∀ (i : Nat) (σ : Sim W S C), i < 2 ^ 32 →
      (playPathGeometricLoop k pg d fuel i σ).2 = Status.outOfFuel := by
  induction fuel with
  | zero => intro i σ _; rfl
  | succ fuel ih =>
    intro i σ hi
    have hlt : i < pg.states_.length := by omega
    unfold playPathGeometricLoop
    simp only [PathGeometric.getStateCount, hlt, if_true, List.getElem?_eq_getElem hlt]
    exact ih _ _ (Nat.mod_lt _ (by norm_num))

/-- The geometric loop never ends by throwing. -/
theorem playPathGeometricLoop_not_threw (k : Collaborators W S C) (pg : PathGeometric S)
    (d : Double) (fuel : Nat) : ∀ (i : Nat) (σ : Sim W S C) (e : Exception),
      (playPathGeometricLoop k pg d fuel i σ).2 ≠ Status.threw e := by
  induction fuel with
  | zero => intro i σ e; simp [playPathGeometricLoop]
  | succ fuel ih =>
    intro i σ e
    unfold playPathGeometricLoop
    split
    · split
      · exact ih _ _ e
      · simp
    · simp

theorem stepWriteCalls_worldSteps (d : Double) (l : List S) :
    (stepWriteCalls (C := C) d l).filter isWorldStep
      = List.replicate l.length (Event.worldStep d) := by
  induction l with
  | nil => rfl
  | cons s ss ih => simp [stepWriteCalls, isWorldStep, ih, List.replicate_succ]

/-- When the control loop leaves normally on a path of fewer than `2 ^ 32` controls, the
counter equals the control count. -/
theorem playPathControlLoop_exit_index (k : Collaborators W S C) (pc : PathControl S C)
    (h32 : pc.controls_.length < 2 ^ 32) (fuel : Nat) :
    ∀ (i : Nat) (σ : Sim W S C), i ≤ pc.controls_.length →
      (playPathControlLoop k pc fuel i σ).2.2 = Status.returned →
      (playPathControlLoop k pc fuel i σ).1 = pc.controls_.length := by
  induction fuel with
  | zero => intro i σ _ h; simp [playPathControlLoop] at h
  | succ fuel ih =>
    intro i σ hi h
    unfold playPathControlLoop at h ⊢
    by_cases hlt : i < pc.getControlCount
    · have hc : i < pc.controls_.length := hlt
      rw [if_pos hlt] at h ⊢
      split at h
      · rename_i s c d h1 h2 h3
        rw [Nat.mod_eq_of_lt (by omega)] at h
        have := ih (i + 1) _ (by omega) h
        rw [Nat.mod_eq_of_lt (by omega)]
        exact this
      · simp at h
    · rw [if_neg hlt]
      have : ¬ i < pc.controls_.length := hlt
      simp only
      omega

theorem propagateCalls_length (ss : List S) (cs : List C) (ds : List Double) :
    (propagateCalls ss cs ds).length = min ss.length (min cs.length ds.length) := by
  induction ss generalizing cs ds with
  | nil => simp [propagateCalls]
  | cons s ss ih =>
    cases cs with
    | nil => simp [propagateCalls]
    | cons c cs =>
      cases ds with
      | nil => simp [propagateCalls]
      | cons d ds =>
        simp only [propagateCalls, List.length_cons, ih]
        omega

/-- Entry `i` of the listed calls is the propagation of state `i` under control `i` for
duration `i`. -/
theorem propagateCalls_getElem? (ss : List S) (cs : List C) (ds : List Double) (i : Nat)
    (s : S) (c : C) (d : Double) (hs : ss[i]? = some s) (hc : cs[i]? = some c)
    (hd : ds[i]? = some d) :
    (propagateCalls ss cs ds)[i]? = some (Event.propagate s c d) := by
  induction ss generalizing cs ds i with
  | nil => simp at hs
  | cons s0 ss ih =>
    cases cs with
    | nil => simp at hc
    | cons c0 cs =>
      cases ds with
      | nil => simp at hd
      | cons d0 ds =>
        cases i with
        | zero =>
          simp only [List.getElem?_cons_zero, Option.some.injEq] at hs hc hd
          simp [propagateCalls, hs, hc, hd]
        | succ i =>
          simp only [List.getElem?_cons_succ] at hs hc hd
          simpa [propagateCalls] using ih cs ds i hs hc hd

/-- C2, amended.  For a control-path with `n` controls, `n` durations and `n + 1` states,
`n < 2 ^ 32`, and a step budget above `n`, `playPath` returns after exactly the calls
`propagate(state_i, control_i, duration_i)` for `i = 0, ..., n - 1` in increasing order
followed by one `writeState` of state `n`, the last call; the live world is the one that
this `writeState` of the final stored state produces, whatever the propagations left. -/
theorem playPath_control_calls (k : Collaborators W S C) (self : MorseSimpleSetup S V P B)
    (fuel : Nat) (pc : PathControl S C) (σ : Sim W S C) (n : Nat)
    (hc : pc.controls_.length = n) (hd : pc.controlDurations_.length = n)
    (hs : pc.states_.length = n + 1) (h32 : n < 2 ^ 32) (hfuel : n < fuel) :
    ∃ w final, pc.states_[n]? = some final ∧
      (propagateCalls pc.states_ pc.controls_ pc.controlDurations_).length = n ∧
      playPath k self fuel (some (Path.control pc)) σ =
        (⟨k.writeState w final,
          σ.trace ++ propagateCalls pc.states_ pc.controls_ pc.controlDurations_
            ++ [Event.writeState final]⟩, Status.returned) ∧
      ((∀ w0 s, k.readState (k.writeState w0 s) = s) →
        k.readState (playPath k self fuel (some (Path.control pc)) σ).1.world = final) := by
  obtain ⟨w, hw⟩ := playPathControlLoop_run k pc (by omega) (by omega) (by omega) fuel 0 σ
    (by omega) (by omega)
  have hlast : n < pc.states_.length := by omega
  have hplay : playPath k self fuel (some (Path.control pc)) σ =
      (⟨k.writeState w pc.states_[n],
        σ.trace ++ propagateCalls pc.states_ pc.controls_ pc.controlDurations_
          ++ [Event.writeState pc.states_[n]]⟩, Status.returned) := by
    simp only [List.drop_zero] at hw
    simp only [playPath, hw, hc, List.getElem?_eq_getElem hlast, Sim.writeState]
  refine ⟨w, pc.states_[n], List.getElem?_eq_getElem hlast, ?_, hplay, ?_⟩
  · rw [propagateCalls_length]; omega
  · intro hlaw
    rw [hplay]
    exact hlaw _ _

/-- C2, witness: the amended statement on the mock world for a path of two controls. -/
theorem playPath_control_calls_witness :
    ∃ w final, ([10, 20, 30] : List Nat)[2]? = some final ∧
      (propagateCalls [10, 20, 30] [(), ()] [Double.zero, Double.max]).length = 2 ∧
      playPath mockWorld mockSetup 3
          (some (Path.control ⟨[10, 20, 30], [(), ()], [Double.zero, Double.max]⟩)) ⟨0, []⟩ =
        (⟨(mockWorld (C := Unit)).writeState w final,
          [] ++ propagateCalls [10, 20, 30] [(), ()] [Double.zero, Double.max]
            ++ [Event.writeState final]⟩, Status.returned) ∧
      ((∀ w0 s, (mockWorld (C := Unit)).readState ((mockWorld (C := Unit)).writeState w0 s) = s) →
        (mockWorld (C := Unit)).readState (playPath mockWorld mockSetup 3
          (some (Path.control ⟨[10, 20, 30], [(), ()], [Double.zero, Double.max]⟩))
          ⟨0, []⟩).1.world = final) :=
  playPath_control_calls mockWorld mockSetup 3
    ⟨[10, 20, 30], [(), ()], [Double.zero, Double.max]⟩ ⟨0, []⟩ 2 rfl rfl rfl
    (by norm_num) (by decide)

/-- With `2 ^ 32` or more controls, states and durations `playPath` uses up every budget. -/
theorem playPath_control_wraps (k : Collaborators W S C) (self : MorseSimpleSetup S V P B)
    (pc : PathControl S C) (hc : 2 ^ 32 ≤ pc.controls_.length)
    (hs : 2 ^ 32 ≤ pc.states_.length) (hd : 2 ^ 32 ≤ pc.controlDurations_.length)
    (fuel : Nat) (σ : Sim W S C) :
    (playPath k self fuel (some (Path.control pc)) σ).2 = Status.outOfFuel := by
  have hw := playPathControlLoop_wraps k pc hc hs hd fuel 0 σ (by norm_num)
  simp only [playPath]
  generalize playPathControlLoop k pc fuel 0 σ = r at hw ⊢
  rcases r with ⟨i, σ1, st⟩
  simp only at hw
  subst hw
  rfl

/-- C2, counterexample: on a control-path of `2 ^ 32` controls, `2 ^ 32` durations and
`2 ^ 32 + 1` states `playPath` never returns, so the final `writeState` is never made. -/
theorem playPath_control_diverges_at_two_pow_32 :
    ¬ ∃ fuel, (playPath mockWorld mockSetup fuel
        (some (Path.control ⟨List.replicate (2 ^ 32 + 1) 0, List.replicate (2 ^ 32) (),
          List.replicate (2 ^ 32) Double.zero⟩)) ⟨0, []⟩).2 = Status.returned := by
  rintro ⟨fuel, h⟩
  rw [playPath_control_wraps mockWorld mockSetup
    ⟨List.replicate (2 ^ 32 + 1) 0, List.replicate (2 ^ 32) (),
      List.replicate (2 ^ 32) Double.zero⟩
    (List.length_replicate (2 ^ 32) ()).ge
    (le_of_le_of_eq (Nat.le_succ _) (List.length_replicate (2 ^ 32 + 1) 0).symm)
    (List.length_replicate (2 ^ 32) Double.zero).ge fuel ⟨0, []⟩] at h
  exact Status.noConfusion h

/-- With `2 ^ 32` or more states `playPath` on a geometric path uses up every budget. -/
theorem playPath_geometric_wraps (k : Collaborators W S C) (self : MorseSimpleSetup S V P B)
    (pg : PathGeometric S) (hn : 2 ^ 32 ≤ pg.states_.length) (fuel : Nat) (σ : Sim W S C) :
    (playPath k self fuel (some (Path.geometric pg)) σ).2 = Status.outOfFuel := by
  have hpos : 0 < pg.states_.length := lt_of_lt_of_le (by norm_num) hn
  simp only [playPath, PathGeometric.getStateCount, gt_iff_lt, hpos, if_true,
    List.getElem?_eq_getElem hpos]
  exact playPathGeometricLoop_wraps k pg _ hn fuel 1 _ (by norm_num)

theorem geometricCalls_worldSteps (d : Double) (l : List S) :
    (geometricCalls (C := C) d l).filter isWorldStep
      = List.replicate (l.length - 1) (Event.worldStep d) := by
  cases l with
  | nil => rfl
  | cons s ss =>
    simp only [geometricCalls, List.length_cons, Nat.add_sub_cancel]
    rw [List.filter_cons_of_neg (by simp [isWorldStep])]
    exact stepWriteCalls_worldSteps d ss

/-- C3, amended.  For a geometric-path of `n < 2 ^ 32` states and a step budget of at
least `n`, `playPath` returns after exactly the calls: none when `n = 0`, otherwise
`writeState(state_0)` followed for `i = 1, ..., n - 1` in order by `worldStep(d)` then
`writeState(state_i)`, where `d` is the propagation step size of the planning session;
the `worldStep` calls are exactly `n - 1` calls with that duration; and the constructor of
`MorseSimpleSetup` sets that step size to the `stepSize_` of the environment. -/
theorem playPath_geometric_calls (k : Collaborators W S C) (self : MorseSimpleSetup S V P B)
    (fuel : Nat) (pg : PathGeometric S) (σ : Sim W S C)
    (h32 : pg.states_.length < 2 ^ 32) (hfuel : pg.states_.length ≤ fuel) :
    (∃ w, playPath k self fuel (some (Path.geometric pg)) σ =
      (⟨w, σ.trace ++ geometricCalls self.si_.getPropagationStepSize pg.states_⟩,
        Status.returned)) ∧
    (geometricCalls (C := C) self.si_.getPropagationStepSize pg.states_).filter isWorldStep
      = List.replicate (pg.states_.length - 1)
          (Event.worldStep self.si_.getPropagationStepSize) ∧
    (∀ (si : SpaceInformation V P) (pdef : ProblemDefinition S) (rest : B)
        (env : base.MorseEnvironment),
      (construct si pdef rest env).si_.getPropagationStepSize = env.stepSize_) := by
  refine ⟨?_, geometricCalls_worldSteps _ _, ?_⟩
  · by_cases hpos : 0 < pg.states_.length
    · obtain ⟨w, hw⟩ := playPathGeometricLoop_run k pg self.si_.getPropagationStepSize h32
        fuel 1 (σ.writeState k pg.states_[0]) (by omega) (by omega)
      refine ⟨w, ?_⟩
      simp only [playPath, PathGeometric.getStateCount, gt_iff_lt, hpos, if_true,
        List.getElem?_eq_getElem hpos, hw]
      obtain ⟨s0, rest, hsr⟩ : ∃ s0 rest, pg.states_ = s0 :: rest := by
        cases hl : pg.states_ with
        | nil => rw [hl] at hpos; simp at hpos
        | cons a b => exact ⟨a, b, rfl⟩
      simp [hsr, geometricCalls, Sim.writeState]
    · have hnil : pg.states_ = [] := List.length_eq_zero.1 (by omega)
      refine ⟨σ.world, ?_⟩
      simp [playPath, PathGeometric.getStateCount, hnil, geometricCalls]
  · intro si pdef rest env
    rfl

/-- C3, witness: the amended statement on the mock world for a path of three states. -/
theorem playPath_geometric_calls_witness :
    (∃ w, playPath (mockWorld (C := Unit)) mockSetup 3
        (some (Path.geometric ⟨[10, 20, 30]⟩)) ⟨0, []⟩ =
      (⟨w, [] ++ geometricCalls mockSetup.si_.getPropagationStepSize [10, 20, 30]⟩,
        Status.returned)) ∧
    (geometricCalls (C := Unit) mockSetup.si_.getPropagationStepSize
        ([10, 20, 30] : List Nat)).filter isWorldStep
      = List.replicate (3 - 1) (Event.worldStep mockSetup.si_.getPropagationStepSize) ∧
    (∀ (si : SpaceInformation Unit Unit) (pdef : ProblemDefinition Nat) (rest : Unit)
        (env : base.MorseEnvironment),
      (construct si pdef rest env).si_.getPropagationStepSize = env.stepSize_) :=
  playPath_geometric_calls mockWorld mockSetup 3 ⟨[10, 20, 30]⟩ ⟨0, []⟩
    (by norm_num) (by decide)

/-- C3, counterexample: on a geometric-path of `2 ^ 32` states `playPath` never returns, so
it does not make exactly `2 ^ 32 - 1` steps. -/
theorem playPath_geometric_diverges_at_two_pow_32 :
    ¬ ∃ fuel, (playPath (mockWorld (C := Unit)) mockSetup fuel
        (some (Path.geometric ⟨List.replicate (2 ^ 32) 0⟩)) ⟨0, []⟩).2 = Status.returned := by
  rintro ⟨fuel, h⟩
  rw [playPath_geometric_wraps mockWorld mockSetup ⟨List.replicate (2 ^ 32) 0⟩
    (List.length_replicate (2 ^ 32) 0).ge fuel ⟨0, []⟩] at h
  exact Status.noConfusion h

/-- C4.  A path pointer that holds neither a control-path nor a geometric-path (no object, or
a path of another kind) makes `playPath` throw the exception "Unknown type of path" with
the world and the call trace untouched, so without any primitive or propagator call; and
`playPath` on a control-path or on a geometric-path never throws. -/
theorem playPath_unknown_type (k : Collaborators W S C) (self : MorseSimpleSetup S V P B)
    (fuel : Nat) (σ : Sim W S C) :
    playPath k self fuel none σ = (σ, Status.threw ⟨"Unknown type of path"⟩) ∧
    playPath k self fuel (some Path.other) σ = (σ, Status.threw ⟨"Unknown type of path"⟩) ∧
    (∀ (pc : PathControl S C) (e : Exception),
      (playPath k self fuel (some (Path.control pc)) σ).2 ≠ Status.threw e) ∧
    (∀ (pg : PathGeometric S) (e : Exception),
      (playPath k self fuel (some (Path.geometric pg)) σ).2 ≠ Status.threw e) := by
  refine ⟨rfl, rfl, ?_, ?_⟩
  · intro pc e
    have hl := playPathControlLoop_not_threw k pc fuel 0 σ
    simp only [playPath]
    generalize playPathControlLoop k pc fuel 0 σ = r at hl ⊢
    rcases r with ⟨i, σ1, st⟩
    cases st with
    | returned =>
      simp only
      split <;> simp
    | threw e2 => exact absurd rfl (hl e2)
    | outOfRange => simp
    | outOfFuel => simp
  · intro pg e
    simp only [playPath]
    split
    · split
      · exact playPathGeometricLoop_not_threw k pg _ fuel 1 _ e
      · simp
    · simp

/-- C9, the code at a geometric-path of two states: `playPath` makes the calls
`writeState`, `worldStep`, `writeState` and never acquires the guard, so the `worldStep`
is made while the guard is not held. -/
theorem playPath_geometric_worldStep_unguarded :
    (playPath (mockWorld (C := Unit)) mockSetup 2
        (some (Path.geometric ⟨[7, 8]⟩)) ⟨0, []⟩).1.trace
      = [Event.writeState 7, Event.worldStep Double.max, Event.writeState 8] ∧
    worldStepsGuarded false
      (playPath (mockWorld (C := Unit)) mockSetup 2
        (some (Path.geometric ⟨[7, 8]⟩)) ⟨0, []⟩).1.trace = false := by
  decide

/-- With at least one more state than controls and at least as many durations as controls,
fewer than `2 ^ 32` controls, `playPath` on a control-path never indexes out of range. -/
theorem playPath_control_in_range (k : Collaborators W S C) (self : MorseSimpleSetup S V P B)
    (pc : PathControl S C) (σ : Sim W S C) (h32 : pc.controls_.length < 2 ^ 32)
    (hs : pc.controls_.length + 1 ≤ pc.states_.length)
    (hd : pc.controls_.length ≤ pc.controlDurations_.length) (fuel : Nat) :
    (playPath k self fuel (some (Path.control pc)) σ).2 ≠ Status.outOfRange := by
  have hr := playPathControlLoop_in_range k pc (by omega) hd fuel 0 σ
  have hx := playPathControlLoop_exit_index k pc h32 fuel 0 σ (by omega)
  simp only [playPath]
  generalize playPathControlLoop k pc fuel 0 σ = r at hr hx ⊢
  rcases r with ⟨i, σ1, st⟩
  cases st with
  | returned =>
    have hi : i = pc.controls_.length := hx rfl
    have hlast : i < pc.states_.length := by omega
    simp [List.getElem?_eq_getElem hlast]
  | threw e => simp
  | outOfRange => exact absurd rfl hr
  | outOfFuel => simp

/-- With fewer states than controls plus one, or fewer durations than controls, `playPath`
on a control-path indexes out of range once the budget exceeds the control count. -/
theorem playPath_control_out_of_range (k : Collaborators W S C)
    (self : MorseSimpleSetup S V P B) (pc : PathControl S C) (σ : Sim W S C)
    (h32 : pc.controls_.length < 2 ^ 32)
    (hshort : ¬ (pc.controls_.length + 1 ≤ pc.states_.length ∧
      pc.controls_.length ≤ pc.controlDurations_.length)) :
    (playPath k self (pc.controls_.length + 1) (some (Path.control pc)) σ).2
      = Status.outOfRange := by
  by_cases hmin : min pc.states_.length pc.controlDurations_.length < pc.controls_.length
  · have hl := playPathControlLoop_short k pc _ rfl hmin (by omega)
      (pc.controls_.length + 1) 0 σ (by omega) (by omega)
    simp only [playPath]
    generalize playPathControlLoop k pc (pc.controls_.length + 1) 0 σ = r at hl ⊢
    rcases r with ⟨i, σ1, st⟩
    simp only at hl
    subst hl
    rfl
  · have hs : pc.controls_.length ≤ pc.states_.length := by omega
    have hd : pc.controls_.length ≤ pc.controlDurations_.length := by omega
    obtain ⟨w, hw⟩ := playPathControlLoop_run k pc hs hd h32 (pc.controls_.length + 1) 0 σ
      (by omega) (by omega)
    have hnone : pc.states_[pc.controls_.length]? = none :=
      List.getElem?_eq_none (by omega)
    simp only [playPath, hw, hnone]

/-- C10, amended.  For a control-path with fewer than `2 ^ 32` controls, `playPath` keeps
every index in range (for every step budget) if and only if the path holds at least one
more state than controls and at least as many durations as controls; and on the empty
control-path it makes no call and reads state index 0 of the empty state sequence, which
is out of range. -/
theorem playPath_control_in_range_iff (k : Collaborators W S C)
    (self : MorseSimpleSetup S V P B) (pc : PathControl S C) (σ : Sim W S C)
    (h32 : pc.controls_.length < 2 ^ 32) :
    ((∀ fuel, (playPath k self fuel (some (Path.control pc)) σ).2 ≠ Status.outOfRange) ↔
      (pc.controls_.length + 1 ≤ pc.states_.length ∧
        pc.controls_.length ≤ pc.controlDurations_.length)) ∧
    (∀ fuel, playPath k self (fuel + 1) (some (Path.control ⟨[], [], []⟩)) σ
      = (σ, Status.outOfRange)) := by
  refine ⟨⟨?_, ?_⟩, ?_⟩
  · intro h
    by_contra hshort
    exact h _ (playPath_control_out_of_range k self pc σ h32 hshort)
  · intro h fuel
    exact playPath_control_in_range k self pc σ h32 h.1 h.2 fuel
  · intro fuel
    rfl

/-- C10, witness: the amended statement on the mock world for a path of one control, two
states and one duration. -/
theorem playPath_control_in_range_iff_witness :
    ((∀ fuel, (playPath (mockWorld (C := Unit)) mockSetup fuel
        (some (Path.control ⟨[10, 20], [()], [Double.zero]⟩)) ⟨0, []⟩).2
          ≠ Status.outOfRange) ↔
      ([()].length + 1 ≤ [10, 20].length ∧ [()].length ≤ [Double.zero].length)) ∧
    (∀ fuel, playPath (mockWorld (C := Unit)) mockSetup (fuel + 1)
        (some (Path.control ⟨[], [], []⟩)) ⟨0, []⟩
      = (⟨0, []⟩, Status.outOfRange)) :=
  playPath_control_in_range_iff mockWorld mockSetup ⟨[10, 20], [()], [Double.zero]⟩ ⟨0, []⟩
    (by norm_num)

/-- C10, counterexample: a control-path of `2 ^ 32` controls, `2 ^ 32` states and `2 ^ 32`
durations keeps every index in range although it holds no more states than controls. -/
theorem playPath_control_in_range_at_two_pow_32 :
    (∀ fuel, (playPath (mockWorld (C := Unit)) mockSetup fuel
        (some (Path.control ⟨List.replicate (2 ^ 32) 0, List.replicate (2 ^ 32) (),
          List.replicate (2 ^ 32) Double.zero⟩)) ⟨0, []⟩).2 ≠ Status.outOfRange) ∧
    ¬ ((List.replicate (2 ^ 32) ()).length + 1 ≤ (List.replicate (2 ^ 32) 0).length ∧
        (List.replicate (2 ^ 32) ()).length ≤ (List.replicate (2 ^ 32) Double.zero).length) := by
  refine ⟨?_, ?_⟩
  · intro fuel
    rw [playPath_control_wraps mockWorld mockSetup
      ⟨List.replicate (2 ^ 32) 0, List.replicate (2 ^ 32) (),
        List.replicate (2 ^ 32) Double.zero⟩
      (List.length_replicate (2 ^ 32) ()).ge (List.length_replicate (2 ^ 32) 0).ge
      (List.length_replicate (2 ^ 32) Double.zero).ge fuel ⟨0, []⟩]
    exact fun h => Status.noConfusion h
  · intro h
    have h1 := h.1
    rw [List.length_replicate, List.length_replicate] at h1
    omega

theorem mockSimpleSetupSetup_keeps :
    KeepsConfiguration (mockSimpleSetupSetup (W := W) (S := S) (C := C) (V := V) (P := P)) := by
  intro self σ
  exact ⟨rfl, rfl, rfl, rfl⟩

/-- What one call of `setup` does to the checker, the projection and the start states, when
the base-class setup keeps them. -/
theorem setup_effect (k : Collaborators W S C)
    (f : MorseSimpleSetup S V P B → Sim W S C → MorseSimpleSetup S V P B × Sim W S C)
    (hf : KeepsConfiguration f) (self : MorseSimpleSetup S V P B) (σ : Sim W S C) :
    (setup k f self σ).1.si_.stateValidityChecker_ =
      some (self.si_.stateValidityChecker_.getD StateValidityChecker.morseStateValidityChecker) ∧
    (setup k f self σ).1.si_.defaultProjection_ =
      some (self.si_.defaultProjection_.getD ProjectionEvaluator.morseProjection) ∧
    (self.pdef_.startStates_ ≠ [] →
      (setup k f self σ).1.pdef_.startStates_ = self.pdef_.startStates_ ∧
      (setup k f self σ).2.trace.countP isReadState = σ.trace.countP isReadState) ∧
    (self.pdef_.startStates_ = [] →
      (setup k f self σ).1.pdef_.startStates_ = [k.readState σ.world] ∧
      (setup k f self σ).2.trace.countP isReadState = σ.trace.countP isReadState + 1) := by
  rcases self with ⟨env, si, pdef, rest⟩
  rcases si with ⟨step, mn, mx, chk, proj, dim⟩
  rcases pdef with ⟨starts⟩
  cases chk <;> cases proj <;> cases starts <;>
    simp [setup, hf _ _, SpaceInformation.setStateValidityChecker,
      SpaceInformation.hasDefaultProjection, SpaceInformation.registerDefaultProjection,
      ProblemDefinition.getStartStateCount, ProblemDefinition.addStartState,
      getCurrentState, Sim.readState, List.countP_append, isReadState]

/-- C8.  Provided the base-class `SimpleSetup::setup()` keeps the validity checker, the
default projection and the start states and reads no state: `setup` keeps a validity
checker that is already set and an existing default projection (and installs the MORSE
defaults where there was none); with one or more start states the start-state list is
unchanged and `readState` is not called; with none, the start states become exactly the
one live state returned by a single `readState`; and a second `setup` leaves the checker,
the projection and the start-state list as the first one left them. -/
theorem setup_idempotent (k : Collaborators W S C)
    (f : MorseSimpleSetup S V P B → Sim W S C → MorseSimpleSetup S V P B × Sim W S C)
    (hf : KeepsConfiguration f) (self : MorseSimpleSetup S V P B) (σ : Sim W S C) :
    (∀ c, self.si_.stateValidityChecker_ = some c →
      (setup k f self σ).1.si_.stateValidityChecker_ = some c) ∧
    (self.si_.stateValidityChecker_ = none →
      (setup k f self σ).1.si_.stateValidityChecker_ =
        some StateValidityChecker.morseStateValidityChecker) ∧
    (∀ p, self.si_.defaultProjection_ = some p →
      (setup k f self σ).1.si_.defaultProjection_ = some p) ∧
    (self.si_.defaultProjection_ = none →
      (setup k f self σ).1.si_.defaultProjection_ = some ProjectionEvaluator.morseProjection) ∧
    (self.pdef_.startStates_ ≠ [] →
      (setup k f self σ).1.pdef_.startStates_ = self.pdef_.startStates_ ∧
      (setup k f self σ).2.trace.countP isReadState = σ.trace.countP isReadState) ∧
    (self.pdef_.startStates_ = [] →
      (setup k f self σ).1.pdef_.startStates_ = [k.readState σ.world] ∧
      (setup k f self σ).2.trace.countP isReadState = σ.trace.countP isReadState + 1) ∧
    ((setup k f (setup k f self σ).1 (setup k f self σ).2).1.si_.stateValidityChecker_ =
        (setup k f self σ).1.si_.stateValidityChecker_ ∧
      (setup k f (setup k f self σ).1 (setup k f self σ).2).1.si_.defaultProjection_ =
        (setup k f self σ).1.si_.defaultProjection_ ∧
      (setup k f (setup k f self σ).1 (setup k f self σ).2).1.pdef_.startStates_ =
        (setup k f self σ).1.pdef_.startStates_ ∧
      (setup k f (setup k f self σ).1 (setup k f self σ).2).2.trace.countP isReadState =
        (setup k f self σ).2.trace.countP isReadState) := by
  obtain ⟨h1, h2, h3, h4⟩ := setup_effect k f hf self σ
  obtain ⟨g1, g2, g3, -⟩ := setup_effect k f hf (setup k f self σ).1 (setup k f self σ).2
  have hne : (setup k f self σ).1.pdef_.startStates_ ≠ [] := by
    by_cases he : self.pdef_.startStates_ = []
    · rw [(h4 he).1]; simp
    · rw [(h3 he).1]; exact he
  refine ⟨?_, ?_, ?_, ?_, h3, h4, ?_, ?_, (g3 hne).1, (g3 hne).2⟩
  · intro c hc; rw [h1, hc]; rfl
  · intro hc; rw [h1, hc]; rfl
  · intro q hq; rw [h2, hq]; rfl
  · intro hq; rw [h2, hq]; rfl
  · rw [g1, h1]; rfl
  · rw [g2, h2]; rfl

/-- C8, witness: the statement with the mock base-class setup, on a setup object with no
checker, no projection and no start state, in the mock world holding state 5. -/
theorem setup_idempotent_witness :
    (setup (mockWorld (C := Unit)) mockSimpleSetupSetup
        (⟨mockSetup.env_, mockSetup.si_, ⟨[]⟩, false⟩ : MorseSimpleSetup Nat Unit Unit Bool)
        ⟨5, []⟩).1.pdef_.startStates_ = [5] ∧
    (setup (mockWorld (C := Unit)) mockSimpleSetupSetup
        (setup (mockWorld (C := Unit)) mockSimpleSetupSetup
          (⟨mockSetup.env_, mockSetup.si_, ⟨[]⟩, false⟩ : MorseSimpleSetup Nat Unit Unit Bool)
          ⟨5, []⟩).1
        (setup (mockWorld (C := Unit)) mockSimpleSetupSetup
          (⟨mockSetup.env_, mockSetup.si_, ⟨[]⟩, false⟩ : MorseSimpleSetup Nat Unit Unit Bool)
          ⟨5, []⟩).2).1.pdef_.startStates_ = [5] :=
  have h := setup_idempotent (mockWorld (C := Unit)) mockSimpleSetupSetup
    mockSimpleSetupSetup_keeps
    (⟨mockSetup.env_, mockSetup.si_, ⟨[]⟩, false⟩ : MorseSimpleSetup Nat Unit Unit Bool)
    ⟨5, []⟩
  ⟨(h.2.2.2.2.2.1 rfl).1, h.2.2.2.2.2.2.2.2.1.trans (h.2.2.2.2.2.1 rfl).1⟩

end MorseSimpleSetup

end control

namespace Double

/-- The conversion from `unsigned int` is exact: the value of the result is the integer. -/
theorem toRat_ofUInt32 (n : Nat) (h : n < 2 ^ 32) : toRat (ofUInt32 n) = (n : ℚ) := by
  by_cases h0 : n = 0
  · subst h0
    simp [ofUInt32, toRat, zero]
  · have hl : Nat.log2 n < 32 := (Nat.log2_lt h0).2 h
    have hle : 2 ^ Nat.log2 n ≤ n := Nat.log2_self_le h0
    have hnum : 2 ^ 52 + (n - 2 ^ Nat.log2 n) * 2 ^ (52 - Nat.log2 n)
        = n * 2 ^ (52 - Nat.log2 n) := by
      have h52 : (2 : Nat) ^ 52 = 2 ^ Nat.log2 n * 2 ^ (52 - Nat.log2 n) := by
        rw [← pow_add]
        congr 1
        omega
      rw [h52, ← Nat.add_mul, Nat.add_sub_cancel' hle]
    have hexp : 1075 - (1023 + Nat.log2 n) = 52 - Nat.log2 n := by omega
    have hne : ¬ 1023 + Nat.log2 n = 0 := by omega
    have hlt : 1023 + Nat.log2 n < 1075 := by omega
    have hpos : ((2 : ℚ) ^ (52 - Nat.log2 n)) ≠ 0 := pow_ne_zero _ (by norm_num)
    simp only [ofUInt32, if_neg h0, toRat, if_neg hne, if_pos hlt, hexp, hnum, Bool.false_eq_true,
      if_false]
    rw [Nat.cast_mul, Nat.cast_pow, Nat.cast_ofNat]
    exact mul_div_cancel_right₀ _ hpos

end Double

namespace control

namespace MorseSimpleSetup

variable {W S C V P B : Type}

theorem read_lt_length (m : ControlStore) (p : ControlPtr) (v : ControlValue)
    (h : m.read p = some v) : p < m.cells.length := by
  by_contra hge
  have : m.cells[p]? = none := List.getElem?_eq_none (Nat.le_of_not_lt hge)
  simp [ControlStore.read, this] at h

theorem read_append_old (cells : List (Option ControlValue)) (x : Option ControlValue)
    (p : ControlPtr) (hp : p < cells.length) :
    ControlStore.read ⟨cells ++ [x]⟩ p = ControlStore.read ⟨cells⟩ p := by
  simp [ControlStore.read, List.getElem?_append_left hp]

theorem read_append_new (cells : List (Option ControlValue)) (x : Option ControlValue) :
    ControlStore.read ⟨cells ++ [x]⟩ cells.length = x := by
  simp [ControlStore.read]

/-- The result of `simulateControl` on a live control, in full. -/
theorem simulateControl_eq (k : Collaborators W S ControlValue) (m : ControlStore)
    (σ : Sim W S ControlValue) (control : ControlPtr) (steps : Nat) (v : ControlValue)
    (hlive : m.read control = some v) :
    simulateControl k m σ control steps =
      some (⟨[k.readState σ.world,
                (k.siPropagate σ.world (k.readState σ.world) v (unsignedToInt steps)).2],
              [m.cells.length], [Double.ofUInt32 steps]⟩,
            ⟨m.cells ++ [some v]⟩,
            ⟨(k.siPropagate σ.world (k.readState σ.world) v (unsignedToInt steps)).1,
              σ.trace ++ [Event.readState,
                Event.siPropagate (k.readState σ.world) v (unsignedToInt steps)]⟩) := by
  simp [simulateControl, hlive, ControlStore.cloneControl, Sim.readState, Sim.siPropagate]

/-- A step count below `2 ^ 31` reaches the `int` parameter unchanged. -/
theorem unsignedToInt_of_lt (n : Nat) (h : n < 2 ^ 31) : unsignedToInt n = (n : Int) := by
  have hmod : n % 2 ^ 32 = n := Nat.mod_eq_of_lt (by omega)
  unfold unsignedToInt
  rw [hmod, if_pos h]

/-- A step count from `2 ^ 31` up to the largest `unsigned int` reaches the `int` parameter
as the negative number `n - 2 ^ 32`. -/
theorem unsignedToInt_of_ge (n : Nat) (hlo : 2 ^ 31 ≤ n) (hhi : n < 2 ^ 32) :
    unsignedToInt n = (n : Int) - 2 ^ 32 ∧ unsignedToInt n < 0 := by
  have hmod : n % 2 ^ 32 = n := Nat.mod_eq_of_lt hhi
  have hnot : ¬ n < 2 ^ 31 := by omega
  unfold unsignedToInt
  rw [hmod, if_neg hnot]
  refine ⟨rfl, ?_⟩
  omega

/-- C5, amended.  For a live control `control` with values `v` and a step count
`steps < 2 ^ 31`, `simulateControl` returns a control-path with states `[s0, s1]`, `s0` the
state read from the live world before any propagation and `s1` the result of propagating
from `s0` under `v` for `steps`; one stored control, a new object distinct from `control`
holding the values `v`, while `control` and every other control keep their values; one
duration, the double whose value is `steps`; so the path has one more state than controls
and than durations.  The calls made are one `readState` and then one propagation. -/
theorem simulateControl_path (k : Collaborators W S ControlValue) (m : ControlStore)
    (σ : Sim W S ControlValue) (control : ControlPtr) (steps : Nat) (v : ControlValue)
    (hlive : m.read control = some v) (hsteps : steps < 2 ^ 31) :
    ∃ path m1 σ1 c1,
      simulateControl k m σ control steps = some (path, m1, σ1) ∧
      path.states_ = [k.readState σ.world,
        (k.siPropagate σ.world (k.readState σ.world) v (steps : Int)).2] ∧
      path.controls_ = [c1] ∧ c1 ≠ control ∧ m1.read c1 = some v ∧
      m1.read control = some v ∧
      (∀ p x, m.read p = some x → m1.read p = some x) ∧
      path.controlDurations_ = [Double.ofUInt32 steps] ∧
      (Double.ofUInt32 steps).toRat = (steps : ℚ) ∧
      σ1.trace = σ.trace ++ [Event.readState,
        Event.siPropagate (k.readState σ.world) v (steps : Int)] ∧
      path.states_.length = path.controls_.length + 1 ∧
      path.states_.length = path.controlDurations_.length + 1 := by
  have hold : ∀ p x, m.read p = some x →
      ControlStore.read ⟨m.cells ++ [some v]⟩ p = some x := by
    intro p x hp
    rw [read_append_old _ _ _ (read_lt_length m p x hp)]
    exact hp
  have heq := simulateControl_eq k m σ control steps v hlive
  rw [unsignedToInt_of_lt steps hsteps] at heq
  refine ⟨_, _, _, m.cells.length, heq, rfl, rfl,
    ?_, read_append_new _ _, hold _ _ hlive, hold, rfl,
    Double.toRat_ofUInt32 steps (by omega), rfl, rfl, rfl⟩
  exact Nat.ne_of_gt (read_lt_length m control v hlive)

/-- C5, witness: the amended statement on the mock world holding state 5, for the control
stored at pointer 0 with values `[max()]` and 3 steps. -/
theorem simulateControl_path_witness :
    ∃ path m1 σ1 c1,
      simulateControl mockWorld ⟨[some [Double.max]]⟩ ⟨5, []⟩ 0 3 = some (path, m1, σ1) ∧
      path.states_ = [5, 8] ∧
      path.controls_ = [c1] ∧ c1 ≠ 0 ∧ m1.read c1 = some [Double.max] ∧
      m1.read 0 = some [Double.max] ∧
      (∀ p x, ControlStore.read ⟨[some [Double.max]]⟩ p = some x → m1.read p = some x) ∧
      path.controlDurations_ = [Double.ofUInt32 3] ∧
      (Double.ofUInt32 3).toRat = ((3 : Nat) : ℚ) ∧
      σ1.trace = [] ++ [Event.readState, Event.siPropagate 5 [Double.max] ((3 : Nat) : Int)] ∧
      path.states_.length = path.controls_.length + 1 ∧
      path.states_.length = path.controlDurations_.length + 1 :=
  simulateControl_path mockWorld ⟨[some [Double.max]]⟩ ⟨5, []⟩ 0 3 [Double.max] rfl
    (by norm_num)

/-- C5, counterexample: for the step count `4294967295` the propagator is called with the
step count `-1`, so on the mock world holding state 5 the second state of the returned path
is 4 and not the result 4294967300 of propagating for `4294967295` steps. -/
theorem simulateControl_negative_steps :
    ∃ path m1 σ1,
      simulateControl mockWorld ⟨[some [Double.max]]⟩ ⟨5, []⟩ 0 4294967295
        = some (path, m1, σ1) ∧
      path.states_ = [5, 4] ∧
      σ1.trace = [Event.readState, Event.siPropagate 5 [Double.max] (-1)] ∧
      path.states_ ≠ [(mockWorld (C := ControlValue)).readState 5,
        ((mockWorld (C := ControlValue)).siPropagate 5
          ((mockWorld (C := ControlValue)).readState 5) [Double.max]
          ((4294967295 : Nat) : Int)).2] := by
  have hconv : unsignedToInt 4294967295 = -1 := by decide
  have heq := simulateControl_eq (mockWorld (C := ControlValue)) ⟨[some [Double.max]]⟩
    ⟨5, []⟩ 0 4294967295 [Double.max] rfl
  rw [hconv] at heq
  refine ⟨_, _, _, heq, ?_, ?_, ?_⟩
  · decide
  · rfl
  · decide

theorem write_allocControl (m : ControlStore) (junk v : ControlValue) :
    (m.allocControl junk).1.write m.cells.length v = ⟨m.cells ++ [some v]⟩ := by
  simp [ControlStore.allocControl, ControlStore.write]

/-- The path returned by `simulateControl` on a fresh control holding `v`, once that control
has been freed: its one stored control still holds `v`. -/
theorem simulateControl_fresh (k : Collaborators W S ControlValue) (m : ControlStore)
    (σ : Sim W S ControlValue) (steps : Nat) (v : ControlValue) :
    ∃ path m1 σ1,
      simulateControl k ⟨m.cells ++ [some v]⟩ σ m.cells.length steps = some (path, m1, σ1) ∧
      path.deref (m1.freeControl m.cells.length) =
        ⟨[k.readState σ.world,
            (k.siPropagate σ.world (k.readState σ.world) v (unsignedToInt steps)).2],
          [some v], [Double.ofUInt32 steps]⟩ ∧
      ∀ (mz : ControlStore) (z : ControlPtr), mz.read z = some v →
        ∃ pz mz1, simulateControl k mz σ z steps = some (pz, mz1, σ1) ∧
          pz.deref mz1 = path.deref (m1.freeControl m.cells.length) := by
  have hlive : ControlStore.read ⟨m.cells ++ [some v]⟩ m.cells.length = some v :=
    read_append_new _ _
  have hderef : ControlStore.read
      (ControlStore.freeControl ⟨m.cells ++ [some v] ++ [some v]⟩ m.cells.length)
      (m.cells ++ [some v]).length = some v := by
    simp only [ControlStore.read, ControlStore.freeControl]
    rw [List.getElem?_set_ne (by simp), List.getElem?_concat_length]
    rfl
  refine ⟨_, _, _, simulateControl_eq k _ σ _ steps v hlive, ?_, ?_⟩
  · simp only [PathControl.deref, List.map_cons, List.map_nil, hderef]
  · intro mz z hz
    refine ⟨_, _, simulateControl_eq k mz σ z steps v hz, ?_⟩
    simp only [PathControl.deref, List.map_cons, List.map_nil, hderef, read_append_new]

/-- C6.  `simulate(steps)` returns a path of two states, one stored control that (after
the temporary control has been freed) holds the values of the null control, and one
duration `steps`; every call `simulateControl(z, steps)` on a control `z` holding the null
control values returns a path with the same states, control values and durations and leaves
the same world and call trace.  Likewise the raw-array overload, given an array of at
least `getDimension()` entries, against `simulateControl(c, steps)` for any control `c`
holding the first `getDimension()` entries of the array.  In both, the second state is the
result of the propagation that `simulateControl` requests, with the step count as the `int`
parameter receives it. -/
theorem simulate_refines_simulateControl (k : Collaborators W S ControlValue)
    (self : MorseSimpleSetup S V P B) (nullValue junk : ControlValue) (m : ControlStore)
    (σ : Sim W S ControlValue) (steps : Nat) (control : List Double)
    (hlen : self.si_.dimension_ ≤ control.length) :
    (∃ path m1 σ1,
      simulate k nullValue junk m σ steps = some (path, m1, σ1) ∧
      path.deref m1 =
        ⟨[k.readState σ.world,
            (k.siPropagate σ.world (k.readState σ.world) nullValue
              (unsignedToInt steps)).2],
          [some nullValue], [Double.ofUInt32 steps]⟩ ∧
      ∀ (mz : ControlStore) (z : ControlPtr), mz.read z = some nullValue →
        ∃ pz mz1, simulateControl k mz σ z steps = some (pz, mz1, σ1) ∧
          pz.deref mz1 = path.deref m1) ∧
    (∃ path m1 σ1,
      simulateControlRaw k self junk m σ control steps = some (path, m1, σ1) ∧
      path.deref m1 =
        ⟨[k.readState σ.world,
            (k.siPropagate σ.world (k.readState σ.world)
              (control.take self.si_.dimension_) (unsignedToInt steps)).2],
          [some (control.take self.si_.dimension_)], [Double.ofUInt32 steps]⟩ ∧
      ∀ (mz : ControlStore) (c : ControlPtr),
        mz.read c = some (control.take self.si_.dimension_) →
        ∃ pc mz1, simulateControl k mz σ c steps = some (pc, mz1, σ1) ∧
          pc.deref mz1 = path.deref m1) := by
  constructor
  · obtain ⟨path, m1, σ1, h1, h2, h3⟩ := simulateControl_fresh k m σ steps nullValue
    refine ⟨path, m1.freeControl m.cells.length, σ1, ?_, h2, h3⟩
    have ha : (m.allocControl junk).2 = m.cells.length := rfl
    simp only [simulate, ControlStore.nullControl, write_allocControl, ha, h1]
  · obtain ⟨path, m1, σ1, h1, h2, h3⟩ :=
      simulateControl_fresh k m σ steps (control.take self.si_.dimension_)
    refine ⟨path, m1.freeControl m.cells.length, σ1, ?_, h2, h3⟩
    have ha : (m.allocControl junk).2 = m.cells.length := rfl
    have hnot : ¬ control.length < self.si_.dimension_ := by omega
    simp only [simulateControlRaw, if_neg hnot, write_allocControl, ha, h1]

/-- C6, witness: the statement on the mock world holding state 5, with null control
`[+0.0]`, an empty control store, 3 steps and the raw array `[max(), +0.0, +0.0]` for a
control space of dimension 2. -/
theorem simulate_refines_simulateControl_witness :
    (∃ path m1 σ1,
      simulate mockWorld [Double.zero] [Double.max] ⟨[]⟩ ⟨5, []⟩ 3 = some (path, m1, σ1) ∧
      path.deref m1 = ⟨[5, 8], [some [Double.zero]], [Double.ofUInt32 3]⟩ ∧
      ∀ (mz : ControlStore) (z : ControlPtr), mz.read z = some [Double.zero] →
        ∃ pz mz1, simulateControl mockWorld mz ⟨5, []⟩ z 3 = some (pz, mz1, σ1) ∧
          pz.deref mz1 = path.deref m1) ∧
    (∃ path m1 σ1,
      simulateControlRaw mockWorld mockSetup [Double.max] ⟨[]⟩ ⟨5, []⟩
        [Double.max, Double.zero, Double.zero] 3 = some (path, m1, σ1) ∧
      path.deref m1 =
        ⟨[5, 8], [some [Double.max, Double.zero]], [Double.ofUInt32 3]⟩ ∧
      ∀ (mz : ControlStore) (c : ControlPtr),
        mz.read c = some [Double.max, Double.zero] →
        ∃ pc mz1, simulateControl mockWorld mz ⟨5, []⟩ c 3 = some (pc, mz1, σ1) ∧
          pc.deref mz1 = path.deref m1) :=
  simulate_refines_simulateControl mockWorld mockSetup [Double.zero] [Double.max] ⟨[]⟩
    ⟨5, []⟩ 3 [Double.max, Double.zero, Double.zero] (by decide)

end MorseSimpleSetup

end control

end ompl
